import Mathlib

/-!
Verification development for the ODOO-graph repository: a shallow embedding of
the extraction-to-graph pipeline (manifest/model/view extractors, batch loader,
indexer orchestration, incremental state tracker) together with theorems that
settle the specification claims against the code.

Conventions of the embedding:
* Python values reachable by the extractors are modelled by the inductive
  `PyVal` (strings, ints, floats, bools, None, lists, tuples, dicts with
  string keys — exactly the shapes `_ast_node_to_python` can produce).
* Fallible code returns `Option`; an exception that escapes a function is a
  dedicated constructor of the relevant result type.
* Association lists model Python dicts and keyed graph-store nodes; list
  membership with find-or-create insertion models Cypher `MERGE`.
-/

namespace OdooGraph

/-- Python values produced by the AST literal converters
(`parsers/model_parser.py::_ast_node_to_python` and
`parsers/manifest_parser.py::_ast_node_to_python`): strings, numbers,
booleans, `None`, lists, tuples, and dicts whose keys are strings.
Floats carry a rational representative (no arithmetic is ever done on them). -/
inductive PyVal where
  | vnone : PyVal
  | vbool : Bool → PyVal
  | vint : Int → PyVal
  | vfloat : Rat → PyVal
  | vstr : String → PyVal
  | vlist : List PyVal → PyVal
  | vtuple : List PyVal → PyVal
  | vdict : List (String × PyVal) → PyVal
  deriving Repr, Inhabited

namespace PyVal

/-- Python truthiness for the values above: `None`, `False`, `0`, `""` and
empty collections are falsy, everything else is truthy (used for the many
`if value:` tests in the source). -/
def truthy : PyVal → Bool
  | vnone => false
  | vbool b => b
  | vint n => n ≠ 0
  | vfloat q => q ≠ 0
  | vstr s => s ≠ ""
  | vlist xs => ¬ xs.isEmpty
  | vtuple xs => ¬ xs.isEmpty
  | vdict kvs => ¬ kvs.isEmpty

end PyVal

open PyVal

mutual

/-- Structural boolean equality on `PyVal` (Lean cannot derive decidable
equality for this nested inductive, so it is spelled out). -/
def pvBEq : PyVal → PyVal → Bool
  | .vnone, .vnone => true
  | .vbool a, .vbool b => a == b
  | .vint a, .vint b => a == b
  | .vfloat a, .vfloat b => a == b
  | .vstr a, .vstr b => a == b
  | .vlist a, .vlist b => pvListBEq a b
  | .vtuple a, .vtuple b => pvListBEq a b
  | .vdict a, .vdict b => pvPairsBEq a b
  | _, _ => false

def pvListBEq : List PyVal → List PyVal → Bool
  | [], [] => true
  | a :: as2, b :: bs2 => pvBEq a b && pvListBEq as2 bs2
  | _, _ => false

def pvPairsBEq : List (String × PyVal) → List (String × PyVal) → Bool
  | [], [] => true
  | (k1, v1) :: as2, (k2, v2) :: bs2 => k1 == k2 && pvBEq v1 v2 && pvPairsBEq as2 bs2
  | _, _ => false

end

theorem pvBEq_iff_eq : ∀ (n : Nat) (a b : PyVal), sizeOf a < n →
    (pvBEq a b = true ↔ a = b) := by
  intro n
  induction n with
  | zero => intro a b h; omega
  | succ n ih =>
    have auxList : ∀ xs ys : List PyVal, (∀ v ∈ xs, sizeOf v < n) →
        (pvListBEq xs ys = true ↔ xs = ys) := by
      intro xs
      induction xs with
      | nil => intro ys _; cases ys <;> simp [pvListBEq]
      | cons x xs ihx =>
        intro ys hs
        cases ys with
        | nil => simp [pvListBEq]
        | cons y ys =>
          have hx := ih x y (hs x (by simp))
          have hxs := ihx ys (fun v hv => hs v (by simp [hv]))
          simp [pvListBEq, hx, hxs]
    have auxPairs : ∀ xs ys : List (String × PyVal),
        (∀ kv ∈ xs, sizeOf kv.2 < n) →
        (pvPairsBEq xs ys = true ↔ xs = ys) := by
      intro xs
      induction xs with
      | nil => intro ys _; cases ys <;> simp [pvPairsBEq]
      | cons x xs ihx =>
        intro ys hs
        obtain ⟨k1, v1⟩ := x
        cases ys with
        | nil => simp [pvPairsBEq]
        | cons y ys =>
          obtain ⟨k2, v2⟩ := y
          have hx2 := ih v1 v2 (hs (k1, v1) (by simp))
          have hxs := ihx ys (fun kv hkv => hs kv (by simp [hkv]))
          simp [pvPairsBEq, hx2, hxs, and_assoc]
    intro a b ha
    cases a <;> cases b <;> simp [pvBEq]
    case vlist.vlist xs ys =>
      exact auxList xs ys fun v hv => by
        have := List.sizeOf_lt_of_mem hv
        simp at ha; omega
    case vtuple.vtuple xs ys =>
      exact auxList xs ys fun v hv => by
        have := List.sizeOf_lt_of_mem hv
        simp at ha; omega
    case vdict.vdict xs ys =>
      refine auxPairs xs ys fun kv hkv => ?_
      have h1 := List.sizeOf_lt_of_mem hkv
      obtain ⟨k, v⟩ := kv
      simp at h1 ⊢
      simp at ha
      omega

instance : DecidableEq PyVal := fun a b =>
  decidable_of_iff _ (pvBEq_iff_eq (sizeOf a + 1) a b (by omega))

/-- JSON documents, the image of Python's `json.dumps`. -/
inductive Json where
  | null : Json
  | jbool : Bool → Json
  | jint : Int → Json
  | jfloat : Rat → Json
  | jstr : String → Json
  | jarr : List Json → Json
  | jobj : List (String × Json) → Json
  deriving Repr, Inhabited

mutual

/-- `json.dumps` semantics on the values reachable here: `None` becomes
`null`, numbers and strings are themselves, and both Python lists and
Python tuples become JSON arrays (tuples have no JSON counterpart). -/
def pyToJson : PyVal → Json
  | .vnone => .null
  | .vbool b => .jbool b
  | .vint n => .jint n
  | .vfloat q => .jfloat q
  | .vstr s => .jstr s
  | .vlist xs => .jarr (pyListToJson xs)
  | .vtuple xs => .jarr (pyListToJson xs)
  | .vdict kvs => .jobj (pyPairsToJson kvs)

def pyListToJson : List PyVal → List Json
  | [] => []
  | v :: vs => pyToJson v :: pyListToJson vs

def pyPairsToJson : List (String × PyVal) → List (String × Json)
  | [] => []
  | (k, v) :: kvs => (k, pyToJson v) :: pyPairsToJson kvs

end

mutual

/-- `json.loads` semantics at the document level: JSON arrays come back as
Python lists (never tuples) and objects come back as dicts in document
order. -/
def jsonToPy : Json → PyVal
  | .null => .vnone
  | .jbool b => .vbool b
  | .jint n => .vint n
  | .jfloat q => .vfloat q
  | .jstr s => .vstr s
  | .jarr xs => .vlist (jsonListToPy xs)
  | .jobj kvs => .vdict (jsonPairsToPy kvs)

def jsonListToPy : List Json → List PyVal
  | [] => []
  | v :: vs => jsonToPy v :: jsonListToPy vs

def jsonPairsToPy : List (String × Json) → List (String × PyVal)
  | [] => []
  | (k, v) :: kvs => (k, jsonToPy v) :: jsonPairsToPy kvs

end

/-- The composite `json.loads (json.dumps v)` applied to a stored value:
`json.dumps` and `json.loads` are mutually inverse between JSON texts and
documents, so the composite is modelled at the document level. -/
def jsonRoundtrip (v : PyVal) : PyVal :=
  jsonToPy (pyToJson v)

mutual

/-- Recursively replace every Python tuple by the list with the same
elements.  This is exactly the information `json.dumps` forgets. -/
def normTuples : PyVal → PyVal
  | .vnone => .vnone
  | .vbool b => .vbool b
  | .vint n => .vint n
  | .vfloat q => .vfloat q
  | .vstr s => .vstr s
  | .vlist xs => .vlist (normTuplesList xs)
  | .vtuple xs => .vlist (normTuplesList xs)
  | .vdict kvs => .vdict (normTuplesPairs kvs)

def normTuplesList : List PyVal → List PyVal
  | [] => []
  | v :: vs => normTuples v :: normTuplesList vs

def normTuplesPairs : List (String × PyVal) → List (String × PyVal)
  | [] => []
  | (k, v) :: kvs => (k, normTuples v) :: normTuplesPairs kvs

end

mutual

/-- A value is tuple-free when no `vtuple` occurs anywhere inside it. -/
def tupleFree : PyVal → Bool
  | .vnone => true
  | .vbool _ => true
  | .vint _ => true
  | .vfloat _ => true
  | .vstr _ => true
  | .vlist xs => tupleFreeList xs
  | .vtuple _ => false
  | .vdict kvs => tupleFreePairs kvs

def tupleFreeList : List PyVal → Bool
  | [] => true
  | v :: vs => tupleFree v && tupleFreeList vs

def tupleFreePairs : List (String × PyVal) → Bool
  | [] => true
  | (_, v) :: kvs => tupleFree v && tupleFreePairs kvs

end

/-- Escaping of the characters Python's `json.dumps` escapes inside string
literals (quote, backslash, and the common control characters). -/
def jsonEscapeChar (c : Char) : String :=
  if c = '"' then "\\\""
  else if c = '\\' then "\\\\"
  else if c = '\n' then "\\n"
  else if c = '\t' then "\\t"
  else if c = '\r' then "\\r"
  else String.singleton c

def jsonEscape (s : String) : String :=
  String.join (s.toList.map jsonEscapeChar)

mutual

/-- The JSON text `json.dumps` produces for a document, with its default
separators (a comma-space between items, a colon-space after keys). -/
def jsonRender : Json → String
  | .null => "null"
  | .jbool b => if b then "true" else "false"
  | .jint n => toString n
  | .jfloat q => toString q
  | .jstr s => "\"" ++ jsonEscape s ++ "\""
  | .jarr xs => "[" ++ jsonRenderList xs ++ "]"
  | .jobj kvs => "\x7b" ++ jsonRenderPairs kvs ++ "\x7d"

def jsonRenderList : List Json → String
  | [] => ""
  | [v] => jsonRender v
  | v :: vs => jsonRender v ++ ", " ++ jsonRenderList vs

def jsonRenderPairs : List (String × Json) → String
  | [] => ""
  | [(k, v)] => "\"" ++ jsonEscape k ++ "\": " ++ jsonRender v
  | (k, v) :: kvs =>
      "\"" ++ jsonEscape k ++ "\": " ++ jsonRender v ++ ", " ++ jsonRenderPairs kvs

end

/-- Python's `str()` on the values that can reach the final branch of
`_serialize_for_neo4j` (only tuples do — every other shape is matched by an
earlier branch); a minimal rendering, never inspected by any theorem. -/
def pyStrOfVal : PyVal → String
  | .vnone => "None"
  | .vbool b => if b then "True" else "False"
  | .vint n => toString n
  | .vfloat q => toString q
  | .vstr s => s
  | .vlist _ => "[...]"
  | .vtuple _ => "(...)"
  | .vdict _ => "dict"

/-- `graph/batch_operations.py::_serialize_for_neo4j`, branch for branch:
`None` passes through, lists and dicts become their `json.dumps` string,
booleans and the primitive scalars pass through unchanged, anything else
(here: a tuple) falls to `str(value)`. -/
def serializeForNeo4j : PyVal → PyVal
  | .vnone => .vnone
  | .vlist xs => .vstr (jsonRender (pyToJson (.vlist xs)))
  | .vdict kvs => .vstr (jsonRender (pyToJson (.vdict kvs)))
  | .vbool b => .vbool b
  | .vint n => .vint n
  | .vfloat q => .vfloat q
  | .vstr s => .vstr s
  | .vtuple xs => .vstr (pyStrOfVal (.vtuple xs))

/-- `graph/batch_operations.py::_prepare_fields_for_neo4j`: serialize every
value of every field record. -/
def prepareFieldsForNeo4j (fields : List (List (String × PyVal))) :
    List (List (String × PyVal)) :=
  fields.map fun field => field.map fun kv => (kv.1, serializeForNeo4j kv.2)

/-! ### Python AST expressions and the model parser
Embeds `parsers/model_parser.py`: the expression shapes its AST walker can
meet, `_ast_node_to_python`, `_is_field_definition`, `_extract_field_info`,
and `extract_model_from_class`. -/

/-- The expression shapes the extractors inspect.  `econst` is
`ast.Constant` (a scalar literal), `ename` an identifier, `ecall` a call
whose function is the attribute access `obj.attr` (the only call shape the
field detector looks at), and `eother` stands for every other node, which
`_ast_node_to_python` maps to `None`.  Dict keys may be absent (a `**`
splat has `key = None`), and call keywords may be nameless (`**kwargs`). -/
inductive PyExpr where
  | econst : PyVal → PyExpr
  | elist : List PyExpr → PyExpr
  | etuple : List PyExpr → PyExpr
  | edict : List (Option PyExpr × PyExpr) → PyExpr
  | ename : String → PyExpr
  | ecall : String → String → List PyExpr → List (Option String × PyExpr) → PyExpr
  | eother : PyExpr
  deriving Repr, Inhabited

/-- Python dict assignment `d[k] = v` on an association list: replace in
place if the key is present (Python keeps the original position), append
otherwise. -/
def dictSet (l : List (String × PyVal)) (k : String) (v : PyVal) :
    List (String × PyVal) :=
  if l.any (fun kv => kv.1 = k) then
    l.map fun kv => if kv.1 = k then (k, v) else kv
  else l ++ [(k, v)]

mutual

/-- `_ast_node_to_python` (identical in `parsers/model_parser.py` and
`parsers/manifest_parser.py`): constants map to their value, lists to
lists, tuples to tuples, dicts keep only entries with a string key (with
dict-overwrite semantics for duplicates), the names `True`/`False`/`None`
map to the corresponding value, and every unsupported node yields `None`. -/
def astToPy : PyExpr → PyVal
  | .econst v => v
  | .elist es => .vlist (astListToPy es)
  | .etuple es => .vtuple (astListToPy es)
  | .edict kvs => .vdict (astDictToPy kvs [])
  | .ename id =>
      if id = "True" then .vbool true
      else if id = "False" then .vbool false
      else .vnone
  | .ecall _ _ _ _ => .vnone
  | .eother => .vnone

def astListToPy : List PyExpr → List PyVal
  | [] => []
  | e :: es => astToPy e :: astListToPy es

def astDictToPy : List (Option PyExpr × PyExpr) → List (String × PyVal) →
    List (String × PyVal)
  | [], acc => acc
  | (none, _) :: kvs, acc => astDictToPy kvs acc
  | (some ke, ve) :: kvs, acc =>
      match astToPy ke with
      | .vstr s => astDictToPy kvs (dictSet acc s (astToPy ve))
      | _ => astDictToPy kvs acc

end

/-- `_get_string_value`: the converted value if it is a string, else `None`. -/
def getStringValue (e : PyExpr) : Option String :=
  match astToPy e with
  | .vstr s => some s
  | _ => none

/-- `parsers/model_parser.py::ODOO_FIELD_TYPES`. -/
def odooFieldTypes : List String :=
  ["Char", "Text", "Integer", "Float", "Boolean", "Date", "Datetime",
   "Binary", "Selection", "Html", "Monetary",
   "Many2one", "One2many", "Many2many",
   "Reference", "Json", "Properties"]

/-- `_is_field_definition`: a call of the form `fields.<T>(...)` with `T`
in the recognized field-type vocabulary. -/
def isFieldDefinition : PyExpr → Bool
  | .ecall obj attr _ _ => obj = "fields" && attr ∈ odooFieldTypes
  | _ => false

/-- `_extract_field_info`: record the field type, interpret positional
argument 0 (a list populates `selection` for a `Selection` field, a string
populates `string`), then capture every named keyword argument verbatim. -/
def extractFieldInfo : PyExpr → Option (List (String × PyVal))
  | .ecall _ attr args kwargs =>
      let info0 : List (String × PyVal) := [("type", .vstr attr)]
      let info1 :=
        match args with
        | [] => info0
        | a :: _ =>
            match astToPy a with
            | .vlist xs =>
                if attr = "Selection" then dictSet info0 "selection" (.vlist xs)
                else info0
            | .vstr s => dictSet info0 "string" (.vstr s)
            | _ => info0
      kwargs.foldl
        (fun acc kw =>
          match kw.1 with
          | some k => dictSet acc k (astToPy kw.2)
          | none => acc)
        info1 |> some
  | _ => none

/-- A class-body statement as the model parser sees it: an assignment with
its `ast.Name` targets (targets of any other shape are skipped by the
source loop and hence omitted here), or anything else. -/
inductive Stmt where
  | assign : List String → PyExpr → Stmt
  | other : Stmt
  deriving Repr, Inhabited

/-- A parsed Python class recognized as an Odoo model: its class name, the
line it starts on, and its body. -/
structure PyClass where
  name : String
  lineno : Nat
  body : List Stmt
  deriving Repr, Inhabited

/-- The mutable `model_data` fields that the attribute loop of
`extract_model_from_class` fills in. -/
structure ScanState where
  nameAttr : Option String := none
  description : Option String := none
  inherit : List String := []
  inheritsDeleg : List (String × PyVal) := []
  fieldsAcc : List (String × List (String × PyVal)) := []
  deriving Repr, Inhabited

/-- Association-list write for the scanned field map (dict semantics). -/
def fieldsSet (l : List (String × List (String × PyVal))) (k : String)
    (v : List (String × PyVal)) : List (String × List (String × PyVal)) :=
  if l.any (fun kv => kv.1 = k) then
    l.map fun kv => if kv.1 = k then (k, v) else kv
  else l ++ [(k, v)]

/-- One iteration of the attribute loop of `extract_model_from_class` for a
single `ast.Name` target. -/
def processTarget (st : ScanState) (t : String) (value : PyExpr) : ScanState :=
  if t = "_name" then { st with nameAttr := getStringValue value }
  else if t = "_description" then { st with description := getStringValue value }
  else if t = "_inherit" then
    match astToPy value with
    | .vstr s => { st with inherit := [s] }
    | .vlist xs =>
        { st with inherit := xs.filterMap fun v =>
            match v with
            | .vstr s => some s
            | _ => none }
    | _ => st
  else if t = "_inherits" then
    match astToPy value with
    | .vdict kvs => { st with inheritsDeleg := kvs }
    | _ => st
  else if isFieldDefinition value then
    match extractFieldInfo value with
    | some fi => { st with fieldsAcc := fieldsSet st.fieldsAcc t fi }
    | none => st
  else st

/-- The whole attribute loop: every assignment statement, every name
target, in order. -/
def scanClassBody (body : List Stmt) : ScanState :=
  body.foldl
    (fun st stmt =>
      match stmt with
      | .assign targets value => targets.foldl (fun st t => processTarget st t value) st
      | .other => st)
    {}

/-- The record `extract_model_from_class` returns for a class that defines
a model.  `fields` holds the merged per-field dicts of the final list
conversion step. -/
structure ModelData where
  className : String
  name : String
  description : Option String
  inherit : List String
  inheritsDeleg : List (String × PyVal)
  fields : List (List (String × PyVal))
  filePath : String
  moduleName : String
  lineNumber : Nat
  isExtension : Bool
  deriving Repr, Inhabited

/-- The list-conversion step at the end of `extract_model_from_class`:
`field_data = {"name": field_name}` then `field_data.update(field_info)`. -/
def mergeFieldRec (fn : String) (info : List (String × PyVal)) :
    List (String × PyVal) :=
  info.foldl (fun acc kv => dictSet acc kv.1 kv.2) [("name", .vstr fn)]

/-- `parsers/model_parser.py::extract_model_from_class`: scan the class
body, then refuse to build a record when `_name` is falsy (`None` or the
empty string — a pure `_inherit` extension), or when `_name` is a member of
`_inherit` (a self-referential extension); otherwise mark `is_extension`
and emit the record. -/
def extractModelFromClass (cls : PyClass) (filePath moduleName : String) :
    Option ModelData :=
  let st := scanClassBody cls.body
  match st.nameAttr with
  | none => none
  | some nm =>
      if nm = "" then none
      else if nm ∈ st.inherit then none
      else some
        { className := cls.name
          name := nm
          description := st.description
          inherit := st.inherit
          inheritsDeleg := st.inheritsDeleg
          fields := st.fieldsAcc.map fun nf => mergeFieldRec nf.1 nf.2
          filePath := filePath
          moduleName := moduleName
          lineNumber := cls.lineno
          isExtension := decide (st.inherit ≠ []) }

/-- `parse_model_file`, restricted to the classes `is_odoo_model` accepted:
collect the records of the classes whose extraction succeeds. -/
def parseModelFile (classes : List PyClass) (filePath moduleName : String) :
    List ModelData :=
  classes.filterMap fun cls => extractModelFromClass cls filePath moduleName

/-- `src/src/extractor/index_models.py::ModelIndexer._classify_model`:
classification by truthiness of `_name` (missing is the empty string) and
`_inherit`. -/
def classifyModel (name : String) (inherit : List String) : String :=
  let hasName := name ≠ ""
  let hasInherit := inherit ≠ []
  if hasName ∧ ¬hasInherit then "parent"
  else if ¬hasName ∧ hasInherit then "child"
  else if hasName ∧ hasInherit then "redefined"
  else "mixin"

/-! ### Manifest parsing and module discovery
Embeds `parsers/manifest_parser.py`. -/

/-- A top-level statement of a manifest module: an expression statement, an
assignment (recording whether any target is an `ast.Name`), or anything
else. -/
inductive TopStmt where
  | exprStmt : PyExpr → TopStmt
  | assignStmt : Bool → PyExpr → TopStmt
  | otherStmt : TopStmt
  deriving Repr, Inhabited

/-- The outcome of reading and `ast.parse`-ing a manifest file: the
encodings all failed, the parse raised a `SyntaxError` (caught), or a
module body was obtained. -/
inductive ManifestSource where
  | undecodable : ManifestSource
  | syntaxError : ManifestSource
  | parsed : List TopStmt → ManifestSource
  deriving Repr, Inhabited

/-- Association lookup on a string-keyed list (Python `dict.get(k)` /
SQLite primary-key lookup). -/
def dictGet (l : List (String × PyVal)) (k : String) : Option PyVal :=
  (l.find? fun kv => kv.1 = k).map fun kv => kv.2

/-- Python `dict.get(k, dflt)`. -/
def pyGetD (l : List (String × PyVal)) (k : String) (dflt : PyVal) : PyVal :=
  (dictGet l k).getD dflt

/-- Association lookup on a string-to-string map. -/
def lookupStr (l : List (String × String)) (k : String) : Option String :=
  (l.find? fun kv => kv.1 = k).map fun kv => kv.2

/-- `_extract_manifest_dict`: the first top-level statement that is either
a bare dict expression or an assignment of a dict to a named target yields
the converted dict; otherwise `None`. -/
def extractManifestDict : List TopStmt → Option (List (String × PyVal))
  | [] => none
  | .exprStmt (.edict kvs) :: _ => some (astDictToPy kvs [])
  | .exprStmt _ :: rest => extractManifestDict rest
  | .assignStmt hasNameTarget v :: rest =>
      match hasNameTarget, v with
      | true, .edict kvs => some (astDictToPy kvs [])
      | _, _ => extractManifestDict rest
  | .otherStmt :: rest => extractManifestDict rest

/-- `_parse_manifest_file`: `None` on undecodable content or a syntax
error, else the extracted manifest dict (or `None` when no dict is found). -/
def parseManifestFile : ManifestSource → Option (List (String × PyVal))
  | .undecodable => none
  | .syntaxError => none
  | .parsed body => extractManifestDict body

/-- A Python source file of a module's `models/` directory as the indexer
sees it: its path, the content hash `compute_file_hash` yields (`none`
models the raised I/O exception), and the Odoo-model classes the AST walk
finds in it (empty when the file has a syntax error). -/
structure ModelFile where
  path : String
  hash : Option String
  classes : List PyClass
  deriving Repr, Inhabited

/-- A candidate module directory: its technical name (the directory name),
which of the two manifest filenames it contains, the manifest's content
hash (`none` models a raised I/O exception), the manifest file's parse
outcome, and its model files. -/
structure ModuleSrc where
  dirName : String
  hasManifestPy : Bool
  hasOpenerpPy : Bool
  manifestHash : Option String
  manifestSrc : ManifestSource
  modelFiles : List ModelFile
  deriving Repr, Inhabited

/-- The path `module_path / "__manifest__.py"` used by the indexer as the
hash ledger key. -/
def manifestPath (m : ModuleSrc) : String :=
  m.dirName ++ "/__manifest__.py"

/-- `find_modules` / `_find_modules_recursive`: a directory qualifies as a
module exactly when it contains one of the `MANIFEST_FILES`
(`__manifest__.py` or `__openerp__.py`); the walked directory set is
modelled as the input list. -/
def findModules (tree : List ModuleSrc) : List ModuleSrc :=
  tree.filter fun m => m.hasManifestPy || m.hasOpenerpPy

/-- `parse_manifest`: find a manifest file among `MANIFEST_FILES`, parse
it, and add the `module_path` and `module_name` entries. -/
def parseManifest (m : ModuleSrc) : Option (List (String × PyVal)) :=
  if ¬ (m.hasManifestPy || m.hasOpenerpPy) then none
  else
    match parseManifestFile m.manifestSrc with
    | none => none
    | some d =>
        some (dictSet (dictSet d "module_path" (.vstr m.dirName))
          "module_name" (.vstr m.dirName))

/-- `get_manifest_dependencies`: the `depends` entry if it is a list,
keeping only its string members. -/
def getManifestDependencies (manifest : List (String × PyVal)) : List String :=
  match pyGetD manifest "depends" (.vlist []) with
  | .vlist xs =>
      xs.filterMap fun v =>
        match v with
        | .vstr s => some s
        | _ => none
  | _ => []

/-! ### The indexer's extraction pass
Embeds `graph/indexer.py::OdooIndexer._extract_all_data` and
`_extract_module_data`. -/

/-- The Module node record the indexer builds (lines 266-281): the unique
technical name plus the property map written by the batch upsert. -/
structure ModuleRec where
  name : String
  props : List (String × PyVal)
  deriving Repr, Inhabited

/-- The Model node record (lines 312-320). -/
structure ModelNodeRec where
  name : String
  description : PyVal
  module : String
  filePath : String
  lineNumber : Nat
  className : String
  fileHash : String
  deriving Repr, Inhabited

/-- A `DELEGATES_TO` record: delegating model, target model, and the
delegating field tag (any Python value, in practice a string). -/
structure DelegRec where
  src : String
  dst : String
  fieldTag : PyVal
  deriving Repr, Inhabited

/-- The Field node record (lines 363-387): the `name` value from the
parsed field dict (a string unless overridden by a keyword argument), the
owning model name, and the fixed 21-key property map. -/
structure FieldNodeRec where
  fieldName : PyVal
  modelName : String
  props : List (String × PyVal)
  deriving Repr, Inhabited

/-- A `REFERENCES` record (lines 402-406). -/
structure FieldRefRec where
  fieldName : PyVal
  modelName : String
  comodel : PyVal
  deriving Repr, Inhabited

/-- The accumulated per-run extraction collections (the `data` dict of
`_extract_all_data`), plus the count of per-file exceptions caught at
lines 408-410. -/
structure ExtractAccum where
  modules : List ModuleRec := []
  moduleDependencies : List (String × String) := []
  models : List ModelNodeRec := []
  modelModuleRels : List (String × String) := []
  modelInheritance : List (String × String) := []
  modelDelegation : List DelegRec := []
  fieldRecs : List FieldNodeRec := []
  fieldModelRels : List (PyVal × String) := []
  fieldRefs : List FieldRefRec := []
  deriving Repr, Inhabited

/-- The per-field keys of the Field node record, in source order. -/
def fieldPropKeys : List String :=
  ["string", "required", "readonly", "help", "default", "compute",
   "store", "related", "depends", "inverse_name", "comodel_name", "domain",
   "selection", "states", "copy", "index", "translate", "digits",
   "sanitize", "strip_style"]

/-- Build the Field node property map: `field_type` defaults to the empty
string, every other property is `field.get(key)` (so `None` when absent). -/
def buildFieldProps (rec : List (String × PyVal)) : List (String × PyVal) :=
  ("field_type", pyGetD rec "type" (.vstr "")) ::
    fieldPropKeys.map fun k => (k, (dictGet rec k).getD .vnone)

/-- Process the parsed field dicts of one model (lines 350-406): skip
records whose `name` value is falsy, else append the Field node record,
the `BELONGS_TO` record, and — when `comodel_name` is truthy — the
`REFERENCES` record. -/
def processFields (modelName : String) (acc : ExtractAccum)
    (fieldDicts : List (List (String × PyVal))) : ExtractAccum :=
  fieldDicts.foldl
    (fun acc rec =>
      let fieldName := (dictGet rec "name").getD .vnone
      if ¬ fieldName.truthy then acc
      else
        let acc :=
          { acc with
            fieldRecs := acc.fieldRecs ++
              [{ fieldName := fieldName, modelName := modelName,
                 props := buildFieldProps rec }]
            fieldModelRels := acc.fieldModelRels ++ [(fieldName, modelName)] }
        let comodel := (dictGet rec "comodel_name").getD .vnone
        if comodel.truthy then
          { acc with fieldRefs := acc.fieldRefs ++
              [{ fieldName := fieldName, modelName := modelName, comodel := comodel }] }
        else acc)
    acc

/-- Process one parsed model record (lines 305-406): skip records with an
empty name (unreachable for parser output, kept for fidelity), else append
the Model node record, the `DEFINED_IN` record, one `INHERITS_FROM` record
per `_inherit` entry, one `DELEGATES_TO` record per `_inherits` entry, and
the field records. -/
def processModel (technical fileHash filePath : String) (acc : ExtractAccum)
    (md : ModelData) : ExtractAccum :=
  if md.name = "" then acc
  else
    let acc :=
      { acc with
        models := acc.models ++
          [{ name := md.name
             description := md.description.elim PyVal.vnone PyVal.vstr
             module := technical
             filePath := filePath
             lineNumber := md.lineNumber
             className := md.className
             fileHash := fileHash }]
        modelModuleRels := acc.modelModuleRels ++ [(md.name, technical)]
        modelInheritance := acc.modelInheritance ++
          md.inherit.map fun parent => (md.name, parent)
        modelDelegation := acc.modelDelegation ++
          md.inheritsDeleg.map fun kv =>
            { src := md.name, dst := kv.1, fieldTag := kv.2 } }
    processFields md.name acc md.fields

/-- Per-run mutable statistics of the indexer (`self.stats`). -/
structure RunStats where
  modulesFound : Nat := 0
  modulesIndexed : Nat := 0
  modelsFound : Nat := 0
  modelsIndexed : Nat := 0
  fieldsFound : Nat := 0
  fieldsIndexed : Nat := 0
  errors : Nat := 0
  deriving Repr, Inhabited

/-- Process one model file (lines 295-410): a raised hash computation is
caught per file and counted as an error; an unchanged hash (incremental)
skips the file; else every parsed model of the file is processed. -/
def processModelFile (technical : String) (existing : List (String × String))
    (st : ExtractAccum × RunStats) (f : ModelFile) : ExtractAccum × RunStats :=
  match f.hash with
  | none => (st.1, { st.2 with errors := st.2.errors + 1 })
  | some h =>
      if lookupStr existing f.path = some h then st
      else
        let models := parseModelFile f.classes f.path technical
        models.foldl
          (fun st md =>
            if md.name = "" then st
            else
              (processModel technical h f.path st.1 md,
               { st.2 with
                 modelsFound := st.2.modelsFound + 1
                 modelsIndexed := st.2.modelsIndexed + 1
                 fieldsFound := st.2.fieldsFound + countedFields md
                 fieldsIndexed := st.2.fieldsIndexed + countedFields md }))
          st
where
  /-- The number of field dicts of a model that pass the truthy-name check
  (each increments `fields_found` and `fields_indexed`). -/
  countedFields (md : ModelData) : Nat :=
    (md.fields.filter fun rec => ((dictGet rec "name").getD .vnone).truthy).length

/-- The outcome of `_extract_module_data` for one module: the method
raised (propagating to the caller's per-module handler), returned `None`
(module skipped), or returned a data dict. -/
inductive ExtractStep where
  | raised : ExtractStep
  | skipped : ExtractStep
  | ok : ExtractAccum → RunStats → ExtractStep
  deriving Repr, Inhabited

/-- `graph/indexer.py::OdooIndexer._extract_module_data`: require the
literal `__manifest__.py` to exist, hash it (an I/O failure raises), skip
the module when the hash is recorded unchanged, parse the manifest (a
failed parse skips the module — without touching the error counter), then
build the module record, its dependency records, and process every model
file. -/
def extractModuleData (existing : List (String × String)) (m : ModuleSrc) :
    ExtractStep :=
  if ¬ m.hasManifestPy then .skipped
  else
    match m.manifestHash with
    | none => .raised
    | some h =>
        if lookupStr existing (manifestPath m) = some h then .skipped
        else
          match parseManifest m with
          | none => .skipped
          | some manifest =>
              let technical :=
                match dictGet manifest "module_name" with
                | some (.vstr s) => s
                | _ => m.dirName
              let moduleRec : ModuleRec :=
                { name := technical
                  props :=
                    [("display_name", pyGetD manifest "name" (.vstr technical)),
                     ("version", pyGetD manifest "version" (.vstr "")),
                     ("category", pyGetD manifest "category" (.vstr "")),
                     ("summary", pyGetD manifest "summary" (.vstr "")),
                     ("description", pyGetD manifest "description" (.vstr "")),
                     ("author", pyGetD manifest "author" (.vstr "")),
                     ("website", pyGetD manifest "website" (.vstr "")),
                     ("license", pyGetD manifest "license" (.vstr "")),
                     ("installable", pyGetD manifest "installable" (.vbool true)),
                     ("auto_install", pyGetD manifest "auto_install" (.vbool false)),
                     ("application", pyGetD manifest "application" (.vbool false)),
                     ("file_path", .vstr (manifestPath m)),
                     ("file_hash", .vstr h)] }
              let acc0 : ExtractAccum :=
                { modules := [moduleRec]
                  moduleDependencies :=
                    (getManifestDependencies manifest).map fun dep => (technical, dep) }
              let (acc, stats) :=
                m.modelFiles.foldl (processModelFile technical existing) (acc0, {})
              .ok acc stats

/-- `graph/indexer.py::_get_existing_file_hashes`: the source returns the
empty dict — its body is the comment `TODO: Implement query to get existing
hashes from database. For now, return empty dict (no incremental support
yet)`. -/
def getExistingFileHashes : List (String × String) := []

/-- Merge a per-module data dict into the run's growing collections
(lines 195-206). -/
def appendAccum (total d : ExtractAccum) : ExtractAccum :=
  { modules := total.modules ++ d.modules
    moduleDependencies := total.moduleDependencies ++ d.moduleDependencies
    models := total.models ++ d.models
    modelModuleRels := total.modelModuleRels ++ d.modelModuleRels
    modelInheritance := total.modelInheritance ++ d.modelInheritance
    modelDelegation := total.modelDelegation ++ d.modelDelegation
    fieldRecs := total.fieldRecs ++ d.fieldRecs
    fieldModelRels := total.fieldModelRels ++ d.fieldModelRels
    fieldRefs := total.fieldRefs ++ d.fieldRefs }

/-- The body of the per-module loop of `_extract_all_data`: a raised
extraction is caught (error counter +1), a skipped module leaves the state
unchanged, and a data dict is merged and counted. -/
def extractStep (existing : List (String × String))
    (st : ExtractAccum × RunStats) (m : ModuleSrc) : ExtractAccum × RunStats :=
  match extractModuleData existing m with
  | .raised => (st.1, { st.2 with errors := st.2.errors + 1 })
  | .skipped => st
  | .ok d dstats =>
      (appendAccum st.1 d,
       { st.2 with
         modulesIndexed := st.2.modulesIndexed + 1
         modelsFound := st.2.modelsFound + dstats.modelsFound
         modelsIndexed := st.2.modelsIndexed + dstats.modelsIndexed
         fieldsFound := st.2.fieldsFound + dstats.fieldsFound
         fieldsIndexed := st.2.fieldsIndexed + dstats.fieldsIndexed
         errors := st.2.errors + dstats.errors })

/-- `graph/indexer.py::OdooIndexer._extract_all_data`: fetch the recorded
hashes when incremental, discover the modules, then run the per-module
loop. -/
def extractAllData (tree : List ModuleSrc) (incremental : Bool) :
    ExtractAccum × RunStats :=
  let existing := if incremental then getExistingFileHashes else []
  let moduleDirs := findModules tree
  moduleDirs.foldl (extractStep existing) ({}, { modulesFound := moduleDirs.length })

/-! ### The graph store and the batch loader
Embeds `graph/batch_operations.py`: Cypher `MERGE` is find-or-create —
nodes are keyed associations whose non-key properties are overwritten,
relationships are set-inserted, `MATCH` guards require the endpoints to
exist. -/

/-- `MERGE` on a keyed node collection: overwrite the properties in place
when the key exists, append the node otherwise. -/
def upsertNode {K P : Type} [DecidableEq K] (l : List (K × P)) (k : K) (p : P) :
    List (K × P) :=
  if l.any (fun kv => kv.1 = k) then
    l.map fun kv => if kv.1 = k then (k, p) else kv
  else l ++ [(k, p)]

/-- `MERGE` on a relationship collection: find-or-create, never a
duplicate. -/
def insertEdge {E : Type} [DecidableEq E] (l : List E) (e : E) : List E :=
  if e ∈ l then l else l ++ [e]

/-- The key set of a keyed node collection. -/
def akeys {K P : Type} (l : List (K × P)) : List K :=
  l.map fun kv => kv.1

/-- The graph store: one keyed collection per node label (Module and Model
keyed by name, Field by the composite (name value, model name)), one
collection per relationship type (delegation edges additionally keyed by
the field tag). -/
structure Graph where
  modules : List (String × List (String × PyVal)) := []
  models : List (String × List (String × PyVal)) := []
  fieldNodes : List ((PyVal × String) × List (String × PyVal)) := []
  dependsOn : List (String × String) := []
  definedIn : List (String × String) := []
  inheritsFrom : List (String × String) := []
  delegatesTo : List (String × String × PyVal) := []
  belongsTo : List ((PyVal × String) × String) := []
  referencesRel : List ((PyVal × String) × String) := []
  deriving Inhabited

def moduleKeys (g : Graph) : List String := g.modules.map fun kv => kv.1

def modelKeys (g : Graph) : List String := g.models.map fun kv => kv.1

def fieldKeys (g : Graph) : List (PyVal × String) := g.fieldNodes.map fun kv => kv.1

/-- `create_modules_batch`: `MERGE` each Module by name and overwrite its
thirteen non-key properties. -/
def applyModulesBatch (g : Graph) (batch : List ModuleRec) : Graph :=
  let upd := batch.foldl (fun l r => upsertNode l r.name r.props) g.modules
  { g with modules := upd }

/-- `create_module_dependencies_batch`: `MATCH` both modules, `MERGE` the
`DEPENDS_ON` edge. -/
def applyModuleDepsBatch (g : Graph) (batch : List (String × String)) : Graph :=
  let upd := batch.foldl
    (fun l r =>
      if r.1 ∈ moduleKeys g ∧ r.2 ∈ moduleKeys g then insertEdge l r else l)
    g.dependsOn
  { g with dependsOn := upd }

/-- The property map `create_models_batch` writes. -/
def modelNodeProps (r : ModelNodeRec) : List (String × PyVal) :=
  [("description", r.description), ("module", .vstr r.module),
   ("file_path", .vstr r.filePath), ("line_number", .vint r.lineNumber),
   ("class_name", .vstr r.className), ("file_hash", .vstr r.fileHash)]

/-- `create_models_batch`: `MERGE` each Model by name and overwrite its
properties. -/
def applyModelsBatch (g : Graph) (batch : List ModelNodeRec) : Graph :=
  let upd := batch.foldl (fun l r => upsertNode l r.name (modelNodeProps r)) g.models
  { g with models := upd }

/-- `create_model_module_relationships_batch`: `MATCH` Model and Module,
`MERGE` the `DEFINED_IN` edge. -/
def applyModelModuleBatch (g : Graph) (batch : List (String × String)) : Graph :=
  let upd := batch.foldl
    (fun l r =>
      if r.1 ∈ modelKeys g ∧ r.2 ∈ moduleKeys g then insertEdge l r else l)
    g.definedIn
  { g with definedIn := upd }

/-- `create_model_inheritance_batch`: `MATCH` both Models, `MERGE` the
`INHERITS_FROM` edge. -/
def applyInheritanceBatch (g : Graph) (batch : List (String × String)) : Graph :=
  let upd := batch.foldl
    (fun l r =>
      if r.1 ∈ modelKeys g ∧ r.2 ∈ modelKeys g then insertEdge l r else l)
    g.inheritsFrom
  { g with inheritsFrom := upd }

/-- `create_model_delegation_batch`: `MATCH` both Models, `MERGE` the
`DELEGATES_TO` edge keyed additionally by the delegating field tag. -/
def applyDelegationBatch (g : Graph) (batch : List DelegRec) : Graph :=
  let upd := batch.foldl
    (fun l r =>
      if r.src ∈ modelKeys g ∧ r.dst ∈ modelKeys g then
        insertEdge l (r.src, r.dst, r.fieldTag)
      else l)
    g.delegatesTo
  { g with delegatesTo := upd }

/-- `create_fields_batch`: serialize every record value through
`_prepare_fields_for_neo4j`, then `MERGE` each Field node by the composite
(name, model name) key and overwrite its property map. -/
def applyFieldsBatch (g : Graph) (batch : List FieldNodeRec) : Graph :=
  let upd := batch.foldl
    (fun l r =>
      upsertNode l (serializeForNeo4j r.fieldName, r.modelName)
        (r.props.map fun kv => (kv.1, serializeForNeo4j kv.2)))
    g.fieldNodes
  { g with fieldNodes := upd }

/-- `create_field_model_relationships_batch`: `MATCH` the Field node and
the Model node, `MERGE` the `BELONGS_TO` edge. -/
def applyFieldModelBatch (g : Graph) (batch : List (PyVal × String)) : Graph :=
  let upd := batch.foldl
    (fun l r =>
      if (r.1, r.2) ∈ fieldKeys g ∧ r.2 ∈ modelKeys g then
        insertEdge l ((r.1, r.2), r.2)
      else l)
    g.belongsTo
  { g with belongsTo := upd }

/-- `create_field_references_batch`: `MATCH` the Field node and the Model
node named by `comodel` (a non-string comodel value matches nothing),
`MERGE` the `REFERENCES` edge. -/
def applyFieldRefsBatch (g : Graph) (batch : List FieldRefRec) : Graph :=
  let upd := batch.foldl
    (fun l r =>
      match r.comodel with
      | .vstr s =>
          if (r.fieldName, r.modelName) ∈ fieldKeys g ∧ s ∈ modelKeys g then
            insertEdge l ((r.fieldName, r.modelName), s)
          else l
      | _ => l)
    g.referencesRel
  { g with referencesRel := upd }

/-! ### The chunking driver -/

def chunksGo (bs : Nat) : Nat → List α → List (List α)
  | _, [] => []
  | 0, _ :: _ => []
  | fuel + 1, x :: xs => ((x :: xs).take bs) :: chunksGo bs fuel ((x :: xs).drop bs)

/-- The chunk decomposition performed by `process_in_batches`
(`items[i : i + batch_size]` for `i in range(0, len(items), batch_size)`). -/
def chunks (bs : Nat) (l : List α) : List (List α) :=
  chunksGo bs l.length l

/-- The created/errors pair every batch operation returns. -/
structure BatchResult where
  created : Nat
  errors : Nat
  deriving Repr, DecidableEq, Inhabited

/-- `graph/batch_operations.py::process_in_batches`: empty input short-
circuits, otherwise the per-kind operation runs once per chunk in order
and the created/errors counts are summed. -/
def processInBatches (op : List R → BatchResult) (items : List R) (bs : Nat) :
    BatchResult :=
  if items.isEmpty then ⟨0, 0⟩
  else
    (chunks bs items).foldl
      (fun acc c =>
        let r := op c
        ⟨acc.created + r.created, acc.errors + r.errors⟩)
      ⟨0, 0⟩

/-- The shape shared by every per-kind batch operation
(`create_modules_batch` and its eight siblings): an empty batch returns
zeros without touching the store; a successful `execute_batch` returns its
created count and zero errors; a raised `execute_batch` is caught and
returns zero created and the whole batch length as errors.  `outcome`
models `execute_batch` (`none` is an exception). -/
def batchOpModel (outcome : List R → Option Nat) (batch : List R) : BatchResult :=
  if batch.isEmpty then ⟨0, 0⟩
  else
    match outcome batch with
    | some created => ⟨created, 0⟩
    | none => ⟨0, batch.length⟩

/-- `config/settings.py` line 39: `BATCH_SIZE` defaults to 50. -/
def settingsBatchSizeDefault : Nat := 50

/-! ### Loading the accumulated data
`OdooIndexer._load_all_data` pushes the nine collections through
`process_in_batches` in dependency order.  Each per-kind operation is a
left fold over its records, and the `MATCH` guards of the relationship
operations read only node collections that the operation itself never
modifies, so running an operation chunk by chunk produces the same store
as running it on the whole list; `loadAll` uses the whole-list form. -/
def loadAll (d : ExtractAccum) (g : Graph) : Graph :=
  let g := applyModulesBatch g d.modules
  let g := applyModuleDepsBatch g d.moduleDependencies
  let g := applyModelsBatch g d.models
  let g := applyModelModuleBatch g d.modelModuleRels
  let g := applyInheritanceBatch g d.modelInheritance
  let g := applyDelegationBatch g d.modelDelegation
  let g := applyFieldsBatch g d.fieldRecs
  let g := applyFieldModelBatch g d.fieldModelRels
  let g := applyFieldRefsBatch g d.fieldRefs
  g

/-- The per-label node census of the store. -/
def nodeCounts (g : Graph) : Nat × Nat × Nat :=
  (g.modules.length, g.models.length, g.fieldNodes.length)

/-- The per-type relationship census of the store. -/
def relCounts (g : Graph) : Nat × Nat × Nat × Nat × Nat × Nat :=
  (g.dependsOn.length, g.definedIn.length, g.inheritsFrom.length,
   g.delegatesTo.length, g.belongsTo.length, g.referencesRel.length)

/-- The error-counter contribution of one discovered module: 1 when its
extraction raises, the module's per-file error count when it returns data,
0 when it is skipped. -/
def stepErrorDelta (existing : List (String × String)) (m : ModuleSrc) : Nat :=
  match extractModuleData existing m with
  | .raised => 1
  | .skipped => 0
  | .ok _ dstats => dstats.errors

/-- The `modules_indexed` contribution of one discovered module. -/
def stepIndexedDelta (existing : List (String × String)) (m : ModuleSrc) : Nat :=
  match extractModuleData existing m with
  | .ok _ _ => 1
  | _ => 0

/-- `OdooIndexer.index_all` restricted to its data path: optionally clear
the store, extract, load. -/
def indexAll (tree : List ModuleSrc) (g : Graph)
    (clearExisting incremental : Bool) : Graph × RunStats :=
  let g0 := if clearExisting then {} else g
  let (d, stats) := extractAllData tree incremental
  (loadAll d g0, stats)

/-- The Module node key set after the module upsert batch of a load pass
(the key set every relationship batch of that pass `MATCH`es modules
against). -/
def moduleKeysLoaded (d : ExtractAccum) (g : Graph) : List String :=
  moduleKeys (applyModulesBatch g d.modules)

/-- The Model node key set after the model upsert batch of a load pass. -/
def modelKeysLoaded (d : ExtractAccum) (g : Graph) : List String :=
  modelKeys (applyModelsBatch g d.models)

/-- The Field node key set after the field upsert batch of a load pass. -/
def fieldKeysLoaded (d : ExtractAccum) (g : Graph) : List (PyVal × String) :=
  fieldKeys (applyFieldsBatch g d.fieldRecs)

/-- A concrete well-formed module fixture: directory `base`, a manifest
that is the single dict literal expression
`\x7b "name": "Base", "depends": [] \x7d`, no model files. -/
def goodModuleEx : ModuleSrc :=
  { dirName := "base"
    hasManifestPy := true
    hasOpenerpPy := false
    manifestHash := some "hash-base"
    manifestSrc := .parsed
      [.exprStmt (.edict
        [(some (.econst (.vstr "name")), .econst (.vstr "Base")),
         (some (.econst (.vstr "depends")), .elist [])])]
    modelFiles := [] }

/-- A module fixture whose manifest file has a Python syntax error. -/
def brokenModuleEx : ModuleSrc :=
  { dirName := "broken"
    hasManifestPy := true
    hasOpenerpPy := false
    manifestHash := some "hash-broken"
    manifestSrc := .syntaxError
    modelFiles := [] }

/-- A module fixture carrying only the legacy `__openerp__.py` manifest. -/
def openerpModuleEx : ModuleSrc :=
  { dirName := "legacy"
    hasManifestPy := false
    hasOpenerpPy := true
    manifestHash := some "hash-legacy"
    manifestSrc := .parsed
      [.exprStmt (.edict [(some (.econst (.vstr "name")), .econst (.vstr "Legacy"))])]
    modelFiles := [] }

/-! ### The incremental state tracker
Embeds `src/src/transformer/incremental_updates.py::StateTracker`. -/

/-- A row of the `file_state` SQLite table (the `last_processed` column is
never read by `detect_changes` and is omitted). -/
structure FileState where
  hash : String
  timestamp : Int
  size : Int
  deriving Repr, DecidableEq, Inhabited

/-- `StateTracker.get_file_state`: primary-key lookup. -/
def getFileState (ledger : List (String × FileState)) (p : String) :
    Option FileState :=
  (ledger.find? fun kv => kv.1 = p).map fun kv => kv.2

/-- The three change sets `detect_changes` returns. -/
structure Changes where
  modified : List String
  newFiles : List String
  deleted : List String
  deriving Repr, DecidableEq, Inhabited

/-- `StateTracker.detect_changes`: one pass over the current files — no
stored state means new, a stored state with a different content hash means
modified — then the stored paths absent from the current list are deleted.
`hashOf` models `compute_file_hash` on the current file contents. -/
def detectChanges (ledger : List (String × FileState)) (hashOf : String → String)
    (filePaths : List String) : Changes :=
  let newF := filePaths.filter fun p => (getFileState ledger p).isNone
  let modF := filePaths.filter fun p =>
    match getFileState ledger p with
    | some st => hashOf p ≠ st.hash
    | none => false
  let deleted := (ledger.map fun kv => kv.1).filter fun p => p ∉ filePaths
  ⟨modF, newF, deleted⟩

/-! ### The view extractor
Embeds `src/src/extractor/index_views.py::ViewIndexer`. -/

/-- A `<field>` child of a view `<record>`: its `name` attribute, optional
`ref` attribute, and optional text content. -/
structure XmlField where
  fname : String
  ref : Option String
  text : Option String
  deriving Repr, DecidableEq, Inhabited

/-- A `<record model="ir.ui.view">` element: its `id` attribute (the empty
string when absent, as `record_elem.get("id", "")` yields) and its
`<field>` children. -/
structure XmlRecord where
  recId : String
  fieldsE : List XmlField
  deriving Repr, DecidableEq, Inhabited

/-- `ViewIndexer._extract_field_value`: a truthy `ref` attribute wins,
else the text content or the empty string. -/
def extractFieldValue (f : XmlField) : String :=
  match f.ref with
  | some r => if r ≠ "" then r else f.text.getD ""
  | none => f.text.getD ""

/-- Python dict write on a string-to-string association list. -/
def dictSetS (l : List (String × String)) (k v : String) : List (String × String) :=
  if l.any (fun kv => kv.1 = k) then
    l.map fun kv => if kv.1 = k then (k, v) else kv
  else l ++ [(k, v)]

/-- The `fields` dict of `_extract_view`: every named `<field>` child in
order. -/
def viewFieldsDict (r : XmlRecord) : List (String × String) :=
  r.fieldsE.foldl
    (fun acc f => if f.fname ≠ "" then dictSetS acc f.fname (extractFieldValue f) else acc)
    []

/-- `ViewIndexer.VIEW_TYPES` (a Python set; iterated here in the literal's
order). -/
def viewTypes : List String :=
  ["form", "tree", "kanban", "search", "calendar", "graph", "pivot", "qweb"]

/-- Python's `needle in hay` on strings: substring search. -/
def strContainsSub (needle hay : List Char) : Bool :=
  match hay with
  | [] => needle.isEmpty
  | _ :: t => needle.isPrefixOf hay || strContainsSub needle t

/-- ASCII lower-casing of one character (`str.lower` on the ASCII content
the view-type detector compares against). -/
def asciiLower (c : Char) : Char :=
  if 'A' ≤ c ∧ c ≤ 'Z' then Char.ofNat (c.toNat + 32) else c

/-- `ViewIndexer._detect_view_type`: first known tag whose opening bracket
occurs in the lowercased architecture string. -/
def detectViewType (arch : String) : String :=
  let lower := arch.toList.map asciiLower
  match viewTypes.find? (fun t =>
    strContainsSub (("<" ++ t).toList) lower ||
      strContainsSub (("<" ++ t ++ ">").toList) lower) with
  | some t => t
  | none => "unknown"

/-- Python `int()` on a string: optional sign and digits after stripping
whitespace, a `ValueError` otherwise. -/
def pyIntOfString (s : String) : Option Int :=
  let t := s.trim
  if t.startsWith "-" then
    ((t.drop 1).toNat?).map fun n => -(n : Int)
  else if t.startsWith "+" then
    ((t.drop 1).toNat?).map fun n => (n : Int)
  else
    (t.toNat?).map fun n => (n : Int)

/-- Truthiness of an absent-or-string value (`None` and `""` are falsy). -/
def truthyOptStr : Option String → Bool
  | some s => s ≠ ""
  | none => false

/-- The `ViewMetadata` record (`line_number` is constantly 0 because
`xml.etree` elements have no `sourceline` attribute and the source uses
`getattr(..., "sourceline", 0)`). -/
structure ViewMeta where
  xmlId : String
  vname : String
  model : String
  viewType : String
  module : String
  inheritId : Option String
  priority : Int
  mode : String
  filePath : String
  errors : List String
  deriving Repr, DecidableEq, Inhabited

/-- `ViewIndexer._extract_view`, including its caller's error handling: a
missing `id` and a record with neither `model` nor `inherit_id` append
validation errors to the record's `errors` list — the record itself is
still returned; the only way a record is dropped is the exception raised
by `int()` on an unparseable `priority` value, which `_parse_xml_file`
catches (yielding no metadata for that record). -/
def extractView (moduleName : String) (r : XmlRecord) (filePath : String) :
    Option ViewMeta :=
  let errs0 : List String := if r.recId = "" then ["Missing XML ID"] else []
  let fullId := if '.' ∈ r.recId.toList then r.recId else moduleName ++ "." ++ r.recId
  let fieldsD := viewFieldsDict r
  let nameV := (lookupStr fieldsD "name").getD ""
  let modelV := (lookupStr fieldsD "model").getD ""
  let inheritId := lookupStr fieldsD "inherit_id"
  let arch := (lookupStr fieldsD "arch").getD ""
  let viewType := detectViewType arch
  let mode := if truthyOptStr inheritId then "extension" else "primary"
  let errs :=
    if modelV = "" ∧ ¬ truthyOptStr inheritId then
      errs0 ++ ["View has neither model nor inherit_id"]
    else errs0
  let priorityRaw := lookupStr fieldsD "priority"
  let priority :=
    match priorityRaw with
    | some s => pyIntOfString s
    | none => some 16
  match priority with
  | none => none
  | some p =>
      some
        { xmlId := fullId, vname := nameV, model := modelV, viewType := viewType,
          module := moduleName, inheritId := inheritId, priority := p,
          mode := mode, filePath := filePath, errors := errs }

/-- `ViewIndexer._parse_xml_file` over the view records of one parsed XML
file: every record whose extraction does not raise is appended. -/
def parseXmlViewRecords (moduleName : String) (records : List XmlRecord)
    (filePath : String) : List ViewMeta :=
  records.filterMap fun r => extractView moduleName r filePath

/-! ## Supporting lemmas -/

/-- Relabelling the diagnostic columns of every ledger row (any new
timestamps and sizes) leaves lookups' hash column unchanged. -/
theorem getFileState_restamp (ledger : List (String × FileState))
    (ts sz : String → Int) (p : String) :
    getFileState (ledger.map fun kv => (kv.1, ⟨kv.2.hash, ts kv.1, sz kv.1⟩)) p
      = (getFileState ledger p).map fun st =>
          (⟨st.hash, ts p, sz p⟩ : FileState) := by
  unfold getFileState
  rw [List.find?_map]
  have hpred : ((fun kv : String × FileState => decide (kv.1 = p)) ∘
      fun kv : String × FileState => (kv.1, (⟨kv.2.hash, ts kv.1, sz kv.1⟩ : FileState)))
      = fun kv : String × FileState => decide (kv.1 = p) := rfl
  rw [hpred]
  cases hf : ledger.find? (fun kv => decide (kv.1 = p)) with
  | none => simp
  | some kv =>
    have hkv : kv.1 = p := by
      have := List.find?_some hf
      simpa using this
    simp [hkv]

theorem chunksGo_join {α : Type} (bs : Nat) (hbs : 1 ≤ bs) :
    ∀ (fuel : Nat) (l : List α), l.length ≤ fuel → (chunksGo bs fuel l).flatten = l := by
  intro fuel
  induction fuel with
  | zero =>
    intro l hl
    cases l with
    | nil => rfl
    | cons x xs => simp at hl
  | succ n ih =>
    intro l hl
    cases l with
    | nil => rfl
    | cons x xs =>
      simp only [chunksGo, List.flatten_cons]
      rw [ih ((x :: xs).drop bs) (by simp at hl ⊢; omega)]
      exact List.take_append_drop bs (x :: xs)

theorem chunksGo_mem {α : Type} (bs : Nat) (hbs : 1 ≤ bs) :
    ∀ (fuel : Nat) (l : List α) (c : List α), c ∈ chunksGo bs fuel l →
      c ≠ [] ∧ c.length ≤ bs := by
  intro fuel
  induction fuel with
  | zero =>
    intro l c hc
    cases l <;> simp [chunksGo] at hc
  | succ n ih =>
    intro l c hc
    cases l with
    | nil => simp [chunksGo] at hc
    | cons x xs =>
      simp only [chunksGo, List.mem_cons] at hc
      rcases hc with hc | hc
      · subst hc
        constructor
        · cases bs with
          | zero => omega
          | succ m => simp
        · simp
      · exact ih _ c hc

theorem chunks_join {α : Type} (bs : Nat) (hbs : 1 ≤ bs) (l : List α) :
    (chunks bs l).flatten = l :=
  chunksGo_join bs hbs l.length l le_rfl

theorem chunks_mem {α : Type} (bs : Nat) (hbs : 1 ≤ bs) (l : List α) (c : List α)
    (hc : c ∈ chunks bs l) : c ≠ [] ∧ c.length ≤ bs :=
  chunksGo_mem bs hbs l.length l c hc

theorem foldl_batch_sum {R : Type} (L : List (List R)) (op : List R → BatchResult)
    (f g : List R → Nat) (h : ∀ c ∈ L, op c = ⟨f c, g c⟩) :
    ∀ a b : Nat,
      L.foldl
          (fun (acc : BatchResult) c =>
            let r := op c
            ⟨acc.created + r.created, acc.errors + r.errors⟩)
          ⟨a, b⟩
        = (⟨a + (L.map f).sum, b + (L.map g).sum⟩ : BatchResult) := by
  induction L with
  | nil => intro a b; simp
  | cons c L ih =>
    intro a b
    have hc := h c (by simp)
    simp only [List.foldl_cons, hc]
    rw [ih (fun c hcL => h c (by simp [hcL]))]
    simp only [List.map_cons, List.sum_cons]
    congr 1 <;> omega

theorem roundtrip_norm_fuel : ∀ n : Nat, ∀ v : PyVal, sizeOf v < n →
    jsonToPy (pyToJson v) = normTuples v := by
  intro n
  induction n with
  | zero => intro v h; omega
  | succ n ih =>
    have auxL : ∀ xs : List PyVal, (∀ v ∈ xs, sizeOf v < n) →
        jsonListToPy (pyListToJson xs) = normTuplesList xs := by
      intro xs
      induction xs with
      | nil => intro _; rfl
      | cons x xs ihx =>
        intro hs
        simp only [pyListToJson, jsonListToPy, normTuplesList]
        rw [ih x (hs x (by simp)), ihx fun v hv => hs v (by simp [hv])]
    have auxP : ∀ kvs : List (String × PyVal), (∀ kv ∈ kvs, sizeOf kv.2 < n) →
        jsonPairsToPy (pyPairsToJson kvs) = normTuplesPairs kvs := by
      intro kvs
      induction kvs with
      | nil => intro _; rfl
      | cons kv kvs ihk =>
        intro hs
        obtain ⟨k, v⟩ := kv
        simp only [pyPairsToJson, jsonPairsToPy, normTuplesPairs]
        rw [ih v (hs (k, v) (by simp)), ihk fun kv hkv => hs kv (by simp [hkv])]
    intro v hv
    cases v with
    | vnone => rfl
    | vbool b => rfl
    | vint m => rfl
    | vfloat q => rfl
    | vstr s => rfl
    | vlist xs =>
      simp only [pyToJson, jsonToPy, normTuples]
      rw [auxL xs fun v hmem => by
        have := List.sizeOf_lt_of_mem hmem
        simp at hv; omega]
    | vtuple xs =>
      simp only [pyToJson, jsonToPy, normTuples]
      rw [auxL xs fun v hmem => by
        have := List.sizeOf_lt_of_mem hmem
        simp at hv; omega]
    | vdict kvs =>
      simp only [pyToJson, jsonToPy, normTuples]
      rw [auxP kvs fun kv hmem => by
        have h1 := List.sizeOf_lt_of_mem hmem
        obtain ⟨k, v⟩ := kv
        simp at h1 hv ⊢
        omega]

/-- `json.loads ∘ json.dumps` is exactly tuple-to-list normalization. -/
theorem jsonRoundtrip_eq_normTuples (v : PyVal) : jsonRoundtrip v = normTuples v :=
  roundtrip_norm_fuel (sizeOf v + 1) v (by omega)

theorem normTuples_fuel : ∀ n : Nat, ∀ v : PyVal, sizeOf v < n →
    tupleFree v = true → normTuples v = v := by
  intro n
  induction n with
  | zero => intro v h; omega
  | succ n ih =>
    have auxL : ∀ xs : List PyVal, (∀ v ∈ xs, sizeOf v < n) →
        tupleFreeList xs = true → normTuplesList xs = xs := by
      intro xs
      induction xs with
      | nil => intro _ _; rfl
      | cons x xs ihx =>
        intro hs hfree
        simp only [tupleFreeList, Bool.and_eq_true] at hfree
        simp only [normTuplesList]
        rw [ih x (hs x (by simp)) hfree.1,
          ihx (fun v hv => hs v (by simp [hv])) hfree.2]
    have auxP : ∀ kvs : List (String × PyVal), (∀ kv ∈ kvs, sizeOf kv.2 < n) →
        tupleFreePairs kvs = true → normTuplesPairs kvs = kvs := by
      intro kvs
      induction kvs with
      | nil => intro _ _; rfl
      | cons kv kvs ihk =>
        intro hs hfree
        obtain ⟨k, v⟩ := kv
        simp only [tupleFreePairs, Bool.and_eq_true] at hfree
        simp only [normTuplesPairs]
        rw [ih v (hs (k, v) (by simp)) hfree.1,
          ihk (fun kv hkv => hs kv (by simp [hkv])) hfree.2]
    intro v hv hfree
    cases v with
    | vnone => rfl
    | vbool b => rfl
    | vint m => rfl
    | vfloat q => rfl
    | vstr s => rfl
    | vlist xs =>
      simp only [normTuples]
      rw [auxL xs (fun v hmem => by
        have := List.sizeOf_lt_of_mem hmem
        simp at hv; omega) (by simpa [tupleFree] using hfree)]
    | vtuple xs => simp [tupleFree] at hfree
    | vdict kvs =>
      simp only [normTuples]
      rw [auxP kvs (fun kv hmem => by
        have h1 := List.sizeOf_lt_of_mem hmem
        obtain ⟨k, v⟩ := kv
        simp at h1 hv ⊢
        omega) (by simpa [tupleFree] using hfree)]

/-- Normalization is the identity on tuple-free values. -/
theorem normTuples_of_tupleFree (v : PyVal) (h : tupleFree v = true) :
    normTuples v = v :=
  normTuples_fuel (sizeOf v + 1) v (by omega) h

theorem mem_akeys_iff_any {K P : Type} [DecidableEq K] (l : List (K × P)) (k : K) :
    (l.any fun kv => kv.1 = k) = true ↔ k ∈ akeys l := by
  simp [akeys, List.any_eq_true, List.mem_map]

theorem akeys_upsert_mem {K P : Type} [DecidableEq K] (l : List (K × P)) (k : K)
    (p : P) (hk : k ∈ akeys l) : akeys (upsertNode l k p) = akeys l := by
  unfold upsertNode
  rw [if_pos ((mem_akeys_iff_any l k).2 hk)]
  unfold akeys
  rw [List.map_map]
  apply List.map_congr_left
  intro kv hkv
  by_cases h : kv.1 = k <;> simp [h]

theorem length_upsert_mem {K P : Type} [DecidableEq K] (l : List (K × P)) (k : K)
    (p : P) (hk : k ∈ akeys l) : (upsertNode l k p).length = l.length := by
  unfold upsertNode
  rw [if_pos ((mem_akeys_iff_any l k).2 hk)]
  simp

theorem mem_akeys_upsert_self {K P : Type} [DecidableEq K] (l : List (K × P))
    (k : K) (p : P) : k ∈ akeys (upsertNode l k p) := by
  unfold upsertNode
  by_cases h : (l.any fun kv => kv.1 = k) = true
  · rw [if_pos h]
    have hk := (mem_akeys_iff_any l k).1 h
    unfold akeys at hk ⊢
    rw [List.map_map]
    obtain ⟨kv, hkv, hfst⟩ := List.mem_map.1 hk
    exact List.mem_map.2 ⟨kv, hkv, by simp [hfst]⟩
  · rw [if_neg h]
    unfold akeys
    simp

theorem mem_akeys_upsert_mono {K P : Type} [DecidableEq K] (l : List (K × P))
    (k k' : K) (p : P) (hk' : k' ∈ akeys l) : k' ∈ akeys (upsertNode l k p) := by
  unfold upsertNode
  by_cases h : (l.any fun kv => kv.1 = k) = true
  · rw [if_pos h]
    unfold akeys at hk' ⊢
    rw [List.map_map]
    obtain ⟨kv, hkv, hfst⟩ := List.mem_map.1 hk'
    refine List.mem_map.2 ⟨kv, hkv, ?_⟩
    by_cases he : kv.1 = k
    · simp only [Function.comp_apply, he, if_pos]
      rw [← he]
      exact hfst
    · simp only [Function.comp_apply]
      rw [if_neg he]
      exact hfst
  · rw [if_neg h]
    unfold akeys at hk' ⊢
    simp [hk']

theorem foldl_upsert_mem_mono {K P R : Type} [DecidableEq K] (key : R → K)
    (pr : R → P) (recs : List R) :
    ∀ (l₀ : List (K × P)) (k : K), k ∈ akeys l₀ →
      k ∈ akeys (recs.foldl (fun l r => upsertNode l (key r) (pr r)) l₀) := by
  induction recs with
  | nil => intro l₀ k hk; exact hk
  | cons r recs ih =>
    intro l₀ k hk
    exact ih _ k (mem_akeys_upsert_mono _ _ _ _ hk)

theorem foldl_upsert_mem_rec {K P R : Type} [DecidableEq K] (key : R → K)
    (pr : R → P) (recs : List R) :
    ∀ (l₀ : List (K × P)) (r : R), r ∈ recs →
      key r ∈ akeys (recs.foldl (fun l r => upsertNode l (key r) (pr r)) l₀) := by
  induction recs with
  | nil => intro l₀ r hr; cases hr
  | cons r0 recs ih =>
    intro l₀ r hr
    rcases List.mem_cons.1 hr with hr | hr
    · subst hr
      exact foldl_upsert_mem_mono key pr recs _ _ (mem_akeys_upsert_self _ _ _)
    · exact ih _ r hr

theorem foldl_upsert_stable {K P R : Type} [DecidableEq K] (key : R → K)
    (pr : R → P) (recs : List R) :
    ∀ (l₀ : List (K × P)), (∀ r ∈ recs, key r ∈ akeys l₀) →
      akeys (recs.foldl (fun l r => upsertNode l (key r) (pr r)) l₀) = akeys l₀
      ∧ (recs.foldl (fun l r => upsertNode l (key r) (pr r)) l₀).length = l₀.length := by
  induction recs with
  | nil => intro l₀ _; exact ⟨rfl, rfl⟩
  | cons r recs ih =>
    intro l₀ h
    have hk : key r ∈ akeys l₀ := h r (by simp)
    have hupk := akeys_upsert_mem l₀ (key r) (pr r) hk
    have hupl := length_upsert_mem l₀ (key r) (pr r) hk
    have hrest : ∀ r2 ∈ recs, key r2 ∈ akeys (upsertNode l₀ (key r) (pr r)) := by
      intro r2 hr2
      rw [hupk]
      exact h r2 (by simp [hr2])
    obtain ⟨ha, hl⟩ := ih (upsertNode l₀ (key r) (pr r)) hrest
    refine ⟨ha.trans hupk, hl.trans hupl⟩

theorem mem_insertEdge_self {E : Type} [DecidableEq E] (l : List E) (e : E) :
    e ∈ insertEdge l e := by
  unfold insertEdge
  by_cases h : e ∈ l <;> simp [h]

theorem mem_insertEdge_mono {E : Type} [DecidableEq E] (l : List E) (e e' : E)
    (he' : e' ∈ l) : e' ∈ insertEdge l e := by
  unfold insertEdge
  by_cases h : e ∈ l <;> simp [h, he']

theorem insertEdge_mem_id {E : Type} [DecidableEq E] (l : List E) (e : E)
    (he : e ∈ l) : insertEdge l e = l := by
  unfold insertEdge
  rw [if_pos he]

theorem foldl_insert_mem_mono {E R : Type} [DecidableEq E] (ed : R → E)
    (gd : R → Prop) [DecidablePred gd] (recs : List R) :
    ∀ (l₀ : List E) (e : E), e ∈ l₀ →
      e ∈ recs.foldl (fun l r => if gd r then insertEdge l (ed r) else l) l₀ := by
  induction recs with
  | nil => intro l₀ e he; exact he
  | cons r recs ih =>
    intro l₀ e he
    simp only [List.foldl_cons]
    by_cases h : gd r
    · rw [if_pos h]
      exact ih _ e (mem_insertEdge_mono _ _ _ he)
    · rw [if_neg h]
      exact ih _ e he

theorem foldl_insert_mem_rec {E R : Type} [DecidableEq E] (ed : R → E)
    (gd : R → Prop) [DecidablePred gd] (recs : List R) :
    ∀ (l₀ : List E) (r : R), r ∈ recs → gd r →
      ed r ∈ recs.foldl (fun l r => if gd r then insertEdge l (ed r) else l) l₀ := by
  induction recs with
  | nil => intro l₀ r hr; cases hr
  | cons r0 recs ih =>
    intro l₀ r hr hg
    rcases List.mem_cons.1 hr with hr | hr
    · subst hr
      simp only [List.foldl_cons, if_pos hg]
      exact foldl_insert_mem_mono ed gd recs _ _ (mem_insertEdge_self _ _)
    · exact ih _ r hr hg

theorem foldl_insert_id {E R : Type} [DecidableEq E] (ed : R → E)
    (gd : R → Prop) [DecidablePred gd] (recs : List R) :
    ∀ (l₀ : List E), (∀ r ∈ recs, gd r → ed r ∈ l₀) →
      recs.foldl (fun l r => if gd r then insertEdge l (ed r) else l) l₀ = l₀ := by
  induction recs with
  | nil => intro l₀ _; rfl
  | cons r recs ih =>
    intro l₀ h
    simp only [List.foldl_cons]
    by_cases hg : gd r
    · rw [if_pos hg, insertEdge_mem_id _ _ (h r (by simp) hg)]
      exact ih l₀ fun r2 hr2 hg2 => h r2 (by simp [hr2]) hg2
    · rw [if_neg hg]
      exact ih l₀ fun r2 hr2 hg2 => h r2 (by simp [hr2]) hg2

theorem extractStep_skip {existing : List (String × String)} {m : ModuleSrc}
    (st : ExtractAccum × RunStats) (h : extractModuleData existing m = .skipped) :
    extractStep existing st m = st := by
  unfold extractStep
  rw [h]

theorem extractStep_data_indep (existing : List (String × String)) (m : ModuleSrc)
    (a : ExtractAccum) (s t : RunStats) :
    (extractStep existing (a, s) m).1 = (extractStep existing (a, t) m).1 := by
  unfold extractStep
  cases extractModuleData existing m <;> rfl

theorem foldl_extractStep_data_indep (existing : List (String × String))
    (l : List ModuleSrc) :
    ∀ (a : ExtractAccum) (s t : RunStats),
      (l.foldl (extractStep existing) (a, s)).1
        = (l.foldl (extractStep existing) (a, t)).1 := by
  induction l with
  | nil => intro a s t; rfl
  | cons m l ih =>
    intro a s t
    simp only [List.foldl_cons]
    cases h1 : extractStep existing (a, s) m with
    | mk a1 s1 =>
      cases h2 : extractStep existing (a, t) m with
      | mk a2 s2 =>
        have : a1 = a2 := by
          have := extractStep_data_indep existing m a s t
          rw [h1, h2] at this
          exact this
        subst this
        exact ih a1 s1 s2

theorem extractStep_errors (existing : List (String × String)) (m : ModuleSrc)
    (a : ExtractAccum) (s : RunStats) :
    (extractStep existing (a, s) m).2.errors = s.errors + stepErrorDelta existing m := by
  unfold extractStep stepErrorDelta
  cases extractModuleData existing m <;> simp

theorem extractStep_indexed (existing : List (String × String)) (m : ModuleSrc)
    (a : ExtractAccum) (s : RunStats) :
    (extractStep existing (a, s) m).2.modulesIndexed
      = s.modulesIndexed + stepIndexedDelta existing m := by
  unfold extractStep stepIndexedDelta
  cases extractModuleData existing m <;> simp

theorem foldl_extractStep_errors (existing : List (String × String))
    (l : List ModuleSrc) :
    ∀ (a : ExtractAccum) (s : RunStats),
      (l.foldl (extractStep existing) (a, s)).2.errors
        = s.errors + (l.map (stepErrorDelta existing)).sum := by
  induction l with
  | nil => intro a s; simp
  | cons m l ih =>
    intro a s
    simp only [List.foldl_cons, List.map_cons, List.sum_cons]
    cases hst : extractStep existing (a, s) m with
    | mk a1 s1 =>
      rw [ih a1 s1]
      have he : s1.errors = s.errors + stepErrorDelta existing m := by
        have h := extractStep_errors existing m a s
        rw [hst] at h
        exact h
      omega

theorem foldl_extractStep_indexed (existing : List (String × String))
    (l : List ModuleSrc) :
    ∀ (a : ExtractAccum) (s : RunStats),
      (l.foldl (extractStep existing) (a, s)).2.modulesIndexed
        = s.modulesIndexed + (l.map (stepIndexedDelta existing)).sum := by
  induction l with
  | nil => intro a s; simp
  | cons m l ih =>
    intro a s
    simp only [List.foldl_cons, List.map_cons, List.sum_cons]
    cases hst : extractStep existing (a, s) m with
    | mk a1 s1 =>
      rw [ih a1 s1]
      have he : s1.modulesIndexed = s.modulesIndexed + stepIndexedDelta existing m := by
        have h := extractStep_indexed existing m a s
        rw [hst] at h
        exact h
      omega

theorem findModules_append (l1 l2 : List ModuleSrc) :
    findModules (l1 ++ l2) = findModules l1 ++ findModules l2 := by
  simp [findModules]

theorem loadAll_modules (d : ExtractAccum) (g : Graph) :
    (loadAll d g).modules
      = d.modules.foldl (fun l r => upsertNode l r.name r.props) g.modules := rfl

theorem loadAll_models (d : ExtractAccum) (g : Graph) :
    (loadAll d g).models
      = d.models.foldl (fun l r => upsertNode l r.name (modelNodeProps r)) g.models := rfl

theorem loadAll_fieldNodes (d : ExtractAccum) (g : Graph) :
    (loadAll d g).fieldNodes
      = d.fieldRecs.foldl
          (fun l r =>
            upsertNode l (serializeForNeo4j r.fieldName, r.modelName)
              (r.props.map fun kv => (kv.1, serializeForNeo4j kv.2)))
          g.fieldNodes := rfl

theorem loadAll_dependsOn (d : ExtractAccum) (g : Graph) :
    (loadAll d g).dependsOn
      = d.moduleDependencies.foldl
          (fun l r =>
            if r.1 ∈ moduleKeysLoaded d g ∧ r.2 ∈ moduleKeysLoaded d g then
              insertEdge l r
            else l)
          g.dependsOn := rfl

theorem loadAll_definedIn (d : ExtractAccum) (g : Graph) :
    (loadAll d g).definedIn
      = d.modelModuleRels.foldl
          (fun l r =>
            if r.1 ∈ modelKeysLoaded d g ∧ r.2 ∈ moduleKeysLoaded d g then
              insertEdge l r
            else l)
          g.definedIn := rfl

theorem loadAll_inheritsFrom (d : ExtractAccum) (g : Graph) :
    (loadAll d g).inheritsFrom
      = d.modelInheritance.foldl
          (fun l r =>
            if r.1 ∈ modelKeysLoaded d g ∧ r.2 ∈ modelKeysLoaded d g then
              insertEdge l r
            else l)
          g.inheritsFrom := rfl

theorem loadAll_delegatesTo (d : ExtractAccum) (g : Graph) :
    (loadAll d g).delegatesTo
      = d.modelDelegation.foldl
          (fun l r =>
            if r.src ∈ modelKeysLoaded d g ∧ r.dst ∈ modelKeysLoaded d g then
              insertEdge l (r.src, r.dst, r.fieldTag)
            else l)
          g.delegatesTo := rfl

theorem loadAll_belongsTo (d : ExtractAccum) (g : Graph) :
    (loadAll d g).belongsTo
      = d.fieldModelRels.foldl
          (fun l r =>
            if (r.1, r.2) ∈ fieldKeysLoaded d g ∧ r.2 ∈ modelKeysLoaded d g then
              insertEdge l ((r.1, r.2), r.2)
            else l)
          g.belongsTo := rfl

theorem loadAll_referencesRel (d : ExtractAccum) (g : Graph) :
    (loadAll d g).referencesRel
      = d.fieldRefs.foldl
          (fun l r =>
            match r.comodel with
            | .vstr s =>
                if (r.fieldName, r.modelName) ∈ fieldKeysLoaded d g
                    ∧ s ∈ modelKeysLoaded d g then
                  insertEdge l ((r.fieldName, r.modelName), s)
                else l
            | _ => l)
          g.referencesRel := rfl

theorem foldl_refs_mem_mono (fieldK : List (PyVal × String)) (modelK : List String)
    (recs : List FieldRefRec) :
    ∀ (l₀ : List ((PyVal × String) × String)) (e : (PyVal × String) × String),
      e ∈ l₀ →
      e ∈ recs.foldl
        (fun l r =>
          match r.comodel with
          | .vstr s =>
              if (r.fieldName, r.modelName) ∈ fieldK ∧ s ∈ modelK then
                insertEdge l ((r.fieldName, r.modelName), s)
              else l
          | _ => l) l₀ := by
  induction recs with
  | nil => intro l₀ e he; exact he
  | cons r recs ih =>
    intro l₀ e he
    simp only [List.foldl_cons]
    cases hcm : r.comodel <;> simp only [hcm] <;>
      first
        | exact ih _ e he
        | (rename_i s
           by_cases hg : (r.fieldName, r.modelName) ∈ fieldK ∧ s ∈ modelK
           · rw [if_pos hg]
             exact ih _ e (mem_insertEdge_mono _ _ _ he)
           · rw [if_neg hg]
             exact ih _ e he)

theorem foldl_refs_mem_rec (fieldK : List (PyVal × String)) (modelK : List String)
    (recs : List FieldRefRec) :
    ∀ (l₀ : List ((PyVal × String) × String)) (r : FieldRefRec) (s : String),
      r ∈ recs → r.comodel = .vstr s →
      (r.fieldName, r.modelName) ∈ fieldK → s ∈ modelK →
      ((r.fieldName, r.modelName), s) ∈ recs.foldl
        (fun l r =>
          match r.comodel with
          | .vstr s =>
              if (r.fieldName, r.modelName) ∈ fieldK ∧ s ∈ modelK then
                insertEdge l ((r.fieldName, r.modelName), s)
              else l
          | _ => l) l₀ := by
  induction recs with
  | nil => intro l₀ r s hr; cases hr
  | cons r0 recs ih =>
    intro l₀ r s hr hcm hf hm
    rcases List.mem_cons.1 hr with hr | hr
    · subst hr
      simp only [List.foldl_cons, hcm, if_pos (And.intro hf hm)]
      exact foldl_refs_mem_mono fieldK modelK recs _ _ (mem_insertEdge_self _ _)
    · simp only [List.foldl_cons]
      exact ih _ r s hr hcm hf hm

theorem foldl_refs_id (fieldK : List (PyVal × String)) (modelK : List String)
    (recs : List FieldRefRec) :
    ∀ (l₀ : List ((PyVal × String) × String)),
      (∀ r ∈ recs, ∀ s : String, r.comodel = .vstr s →
        (r.fieldName, r.modelName) ∈ fieldK → s ∈ modelK →
        ((r.fieldName, r.modelName), s) ∈ l₀) →
      recs.foldl
        (fun l r =>
          match r.comodel with
          | .vstr s =>
              if (r.fieldName, r.modelName) ∈ fieldK ∧ s ∈ modelK then
                insertEdge l ((r.fieldName, r.modelName), s)
              else l
          | _ => l) l₀ = l₀ := by
  induction recs with
  | nil => intro l₀ _; rfl
  | cons r recs ih =>
    intro l₀ h
    simp only [List.foldl_cons]
    have hrest : ∀ r2 ∈ recs, ∀ s : String, r2.comodel = .vstr s →
        (r2.fieldName, r2.modelName) ∈ fieldK → s ∈ modelK →
        ((r2.fieldName, r2.modelName), s) ∈ l₀ :=
      fun r2 hr2 s hcm hf hm => h r2 (by simp [hr2]) s hcm hf hm
    cases hcm : r.comodel <;> simp only [hcm] <;>
      first
        | exact ih l₀ hrest
        | (rename_i s
           by_cases hg : (r.fieldName, r.modelName) ∈ fieldK ∧ s ∈ modelK
           · rw [if_pos hg, insertEdge_mem_id _ _ (h r (by simp) s hcm hg.1 hg.2)]
             exact ih l₀ hrest
           · rw [if_neg hg]
             exact ih l₀ hrest)

/-- Loading the same extracted collections a second time onto the already
loaded store changes no counts: node upserts find every key already
present, and every relationship `MERGE` finds its edge already present
(the second pass leaves the relationship collections literally equal). -/
theorem loadAll_idem_counts (d : ExtractAccum) (g : Graph) :
    nodeCounts (loadAll d (loadAll d g)) = nodeCounts (loadAll d g)
    ∧ relCounts (loadAll d (loadAll d g)) = relCounts (loadAll d g) := by
  have hmodmem : ∀ r ∈ d.modules, r.name ∈ akeys (loadAll d g).modules := by
    intro r hr
    rw [loadAll_modules]
    exact foldl_upsert_mem_rec (fun r : ModuleRec => r.name)
      (fun r => r.props) d.modules g.modules r hr
  have hmodstab := foldl_upsert_stable (fun r : ModuleRec => r.name)
    (fun r => r.props) d.modules (loadAll d g).modules hmodmem
  have hmdlmem : ∀ r ∈ d.models, r.name ∈ akeys (loadAll d g).models := by
    intro r hr
    rw [loadAll_models]
    exact foldl_upsert_mem_rec (fun r : ModelNodeRec => r.name)
      (fun r => modelNodeProps r) d.models g.models r hr
  have hmdlstab := foldl_upsert_stable (fun r : ModelNodeRec => r.name)
    (fun r => modelNodeProps r) d.models (loadAll d g).models hmdlmem
  have hfldmem : ∀ r ∈ d.fieldRecs,
      (serializeForNeo4j r.fieldName, r.modelName) ∈ akeys (loadAll d g).fieldNodes := by
    intro r hr
    rw [loadAll_fieldNodes]
    exact foldl_upsert_mem_rec
      (fun r : FieldNodeRec => (serializeForNeo4j r.fieldName, r.modelName))
      (fun r => r.props.map fun kv => (kv.1, serializeForNeo4j kv.2))
      d.fieldRecs g.fieldNodes r hr
  have hfldstab := foldl_upsert_stable
    (fun r : FieldNodeRec => (serializeForNeo4j r.fieldName, r.modelName))
    (fun r => r.props.map fun kv => (kv.1, serializeForNeo4j kv.2))
    d.fieldRecs (loadAll d g).fieldNodes hfldmem
  have hkM : moduleKeysLoaded d (loadAll d g) = moduleKeysLoaded d g := by
    have h1 : moduleKeysLoaded d (loadAll d g)
        = akeys (d.modules.foldl (fun l r => upsertNode l r.name r.props)
            (loadAll d g).modules) := rfl
    have h2 : akeys (loadAll d g).modules = moduleKeysLoaded d g := by
      rw [loadAll_modules]
      rfl
    rw [h1, hmodstab.1, h2]
  have hkMd : modelKeysLoaded d (loadAll d g) = modelKeysLoaded d g := by
    have h1 : modelKeysLoaded d (loadAll d g)
        = akeys (d.models.foldl (fun l r => upsertNode l r.name (modelNodeProps r))
            (loadAll d g).models) := rfl
    have h2 : akeys (loadAll d g).models = modelKeysLoaded d g := by
      rw [loadAll_models]
      rfl
    rw [h1, hmdlstab.1, h2]
  have hkF : fieldKeysLoaded d (loadAll d g) = fieldKeysLoaded d g := by
    have h1 : fieldKeysLoaded d (loadAll d g)
        = akeys (d.fieldRecs.foldl
            (fun l r =>
              upsertNode l (serializeForNeo4j r.fieldName, r.modelName)
                (r.props.map fun kv => (kv.1, serializeForNeo4j kv.2)))
            (loadAll d g).fieldNodes) := rfl
    have h2 : akeys (loadAll d g).fieldNodes = fieldKeysLoaded d g := by
      rw [loadAll_fieldNodes]
      rfl
    rw [h1, hfldstab.1, h2]
  have hdep : (loadAll d (loadAll d g)).dependsOn = (loadAll d g).dependsOn := by
    rw [loadAll_dependsOn, hkM]
    apply foldl_insert_id (fun r : String × String => r)
      (fun r => r.1 ∈ moduleKeysLoaded d g ∧ r.2 ∈ moduleKeysLoaded d g)
    intro r hr hg
    rw [loadAll_dependsOn]
    exact foldl_insert_mem_rec (fun r : String × String => r)
      (fun r => r.1 ∈ moduleKeysLoaded d g ∧ r.2 ∈ moduleKeysLoaded d g)
      d.moduleDependencies g.dependsOn r hr hg
  have hdefin : (loadAll d (loadAll d g)).definedIn = (loadAll d g).definedIn := by
    rw [loadAll_definedIn, hkM, hkMd]
    apply foldl_insert_id (fun r : String × String => r)
      (fun r => r.1 ∈ modelKeysLoaded d g ∧ r.2 ∈ moduleKeysLoaded d g)
    intro r hr hg
    rw [loadAll_definedIn]
    exact foldl_insert_mem_rec (fun r : String × String => r)
      (fun r => r.1 ∈ modelKeysLoaded d g ∧ r.2 ∈ moduleKeysLoaded d g)
      d.modelModuleRels g.definedIn r hr hg
  have hinh : (loadAll d (loadAll d g)).inheritsFrom = (loadAll d g).inheritsFrom := by
    rw [loadAll_inheritsFrom, hkMd]
    apply foldl_insert_id (fun r : String × String => r)
      (fun r => r.1 ∈ modelKeysLoaded d g ∧ r.2 ∈ modelKeysLoaded d g)
    intro r hr hg
    rw [loadAll_inheritsFrom]
    exact foldl_insert_mem_rec (fun r : String × String => r)
      (fun r => r.1 ∈ modelKeysLoaded d g ∧ r.2 ∈ modelKeysLoaded d g)
      d.modelInheritance g.inheritsFrom r hr hg
  have hdeleg : (loadAll d (loadAll d g)).delegatesTo = (loadAll d g).delegatesTo := by
    rw [loadAll_delegatesTo, hkMd]
    apply foldl_insert_id (fun r : DelegRec => (r.src, r.dst, r.fieldTag))
      (fun r => r.src ∈ modelKeysLoaded d g ∧ r.dst ∈ modelKeysLoaded d g)
    intro r hr hg
    rw [loadAll_delegatesTo]
    exact foldl_insert_mem_rec (fun r : DelegRec => (r.src, r.dst, r.fieldTag))
      (fun r => r.src ∈ modelKeysLoaded d g ∧ r.dst ∈ modelKeysLoaded d g)
      d.modelDelegation g.delegatesTo r hr hg
  have hbel : (loadAll d (loadAll d g)).belongsTo = (loadAll d g).belongsTo := by
    rw [loadAll_belongsTo, hkMd, hkF]
    apply foldl_insert_id (fun r : PyVal × String => ((r.1, r.2), r.2))
      (fun r => (r.1, r.2) ∈ fieldKeysLoaded d g ∧ r.2 ∈ modelKeysLoaded d g)
    intro r hr hg
    rw [loadAll_belongsTo]
    exact foldl_insert_mem_rec (fun r : PyVal × String => ((r.1, r.2), r.2))
      (fun r => (r.1, r.2) ∈ fieldKeysLoaded d g ∧ r.2 ∈ modelKeysLoaded d g)
      d.fieldModelRels g.belongsTo r hr hg
  have href : (loadAll d (loadAll d g)).referencesRel = (loadAll d g).referencesRel := by
    rw [loadAll_referencesRel, hkMd, hkF]
    apply foldl_refs_id (fieldKeysLoaded d g) (modelKeysLoaded d g)
    intro r hr s hcm hf hm
    rw [loadAll_referencesRel]
    exact foldl_refs_mem_rec (fieldKeysLoaded d g) (modelKeysLoaded d g)
      d.fieldRefs g.referencesRel r s hr hcm hf hm
  constructor
  · unfold nodeCounts
    rw [loadAll_modules d (loadAll d g), loadAll_models d (loadAll d g),
      loadAll_fieldNodes d (loadAll d g), hmodstab.2, hmdlstab.2, hfldstab.2]
  · unfold relCounts
    rw [hdep, hdefin, hinh, hdeleg, hbel, href]

/-! ## Claim theorems -/

/-- C1: the classification of the (`_name`, `_inherit`) pair follows the
spec rule.  `_name='a'` with no `_inherit` classifies as `parent`; no
`_name` with `_inherit=['a']` classifies as `child` and the parser emits
no record for such a class; `_name='a'` with `_inherit=['a']` is treated
as an extension — the parser emits no record; `_name='a'` with
`_inherit=['b']` (differing) classifies as `redefined` and contributes
exactly one Model record named `a` together with exactly one
`INHERITS_FROM` record from `a` to `b`. -/
theorem claim_C1_classification (a b cn fp mn hsh : String) (ln : Nat)
    (ha : a ≠ "") (hab : a ≠ b) :
    classifyModel a [] = "parent"
    ∧ classifyModel "" [a] = "child"
    ∧ parseModelFile
        [⟨cn, ln, [.assign ["_inherit"] (.elist [.econst (.vstr a)])]⟩] fp mn = []
    ∧ parseModelFile
        [⟨cn, ln, [.assign ["_name"] (.econst (.vstr a)),
          .assign ["_inherit"] (.elist [.econst (.vstr a)])]⟩] fp mn = []
    ∧ classifyModel a [b] = "redefined"
    ∧ ((parseModelFile
          [⟨cn, ln, [.assign ["_name"] (.econst (.vstr a)),
            .assign ["_inherit"] (.elist [.econst (.vstr b)])]⟩] fp mn).foldl
          (processModel mn hsh fp) {}).models.map (fun r => r.name) = [a]
    ∧ ((parseModelFile
          [⟨cn, ln, [.assign ["_name"] (.econst (.vstr a)),
            .assign ["_inherit"] (.elist [.econst (.vstr b)])]⟩] fp mn).foldl
          (processModel mn hsh fp) {}).modelInheritance = [(a, b)] := by
  refine ⟨?_, ?_, rfl, ?_, ?_, ?_, ?_⟩
  · simp [classifyModel, ha]
  · simp [classifyModel]
  · simp [parseModelFile, extractModelFromClass, scanClassBody, processTarget,
      astToPy, astListToPy, getStringValue, isFieldDefinition]
  · simp [classifyModel, ha]
  · simp [parseModelFile, extractModelFromClass, scanClassBody, processTarget,
      astToPy, astListToPy, getStringValue, isFieldDefinition, ha, hab,
      processModel, processFields]
  · simp [parseModelFile, extractModelFromClass, scanClassBody, processTarget,
      astToPy, astListToPy, getStringValue, isFieldDefinition, ha, hab,
      processModel, processFields]

/-- C1 witness at `a := "a"`, `b := "b"`. -/
theorem claim_C1_witness :
    ("a" ≠ "" ∧ "a" ≠ "b")
    ∧ (classifyModel "a" [] = "parent"
      ∧ classifyModel "" ["a"] = "child"
      ∧ parseModelFile
          [⟨"C", 1, [.assign ["_inherit"] (.elist [.econst (.vstr "a")])]⟩]
          "f.py" "m" = []
      ∧ parseModelFile
          [⟨"C", 1, [.assign ["_name"] (.econst (.vstr "a")),
            .assign ["_inherit"] (.elist [.econst (.vstr "a")])]⟩] "f.py" "m" = []
      ∧ classifyModel "a" ["b"] = "redefined"
      ∧ ((parseModelFile
            [⟨"C", 1, [.assign ["_name"] (.econst (.vstr "a")),
              .assign ["_inherit"] (.elist [.econst (.vstr "b")])]⟩] "f.py" "m").foldl
            (processModel "m" "h0" "f.py") {}).models.map (fun r => r.name) = ["a"]
      ∧ ((parseModelFile
            [⟨"C", 1, [.assign ["_name"] (.econst (.vstr "a")),
              .assign ["_inherit"] (.elist [.econst (.vstr "b")])]⟩] "f.py" "m").foldl
            (processModel "m" "h0" "f.py") {}).modelInheritance = [("a", "b")]) :=
  ⟨⟨by decide, by decide⟩,
    claim_C1_classification "a" "b" "C" "f.py" "m" "h0" 1
      (by decide) (by decide)⟩

/-- C2: extraction never emits a Model record for a pure-extension class
(falsy `_name` — absent or empty) nor for a self-referential class
(`_name` a member of `_inherit`): `extract_model_from_class` returns
`None` for both, so a parsed file's record list is unchanged by such a
class. -/
theorem claim_C2_extension_never_node (cls : PyClass) (fp mn : String)
    (rest : List PyClass) :
    (((scanClassBody cls.body).nameAttr = none
        ∨ (scanClassBody cls.body).nameAttr = some "") →
      extractModelFromClass cls fp mn = none)
    ∧ (∀ nm, (scanClassBody cls.body).nameAttr = some nm →
        nm ∈ (scanClassBody cls.body).inherit →
      extractModelFromClass cls fp mn = none)
    ∧ (extractModelFromClass cls fp mn = none →
      parseModelFile (cls :: rest) fp mn = parseModelFile rest fp mn) := by
  refine ⟨?_, ?_, ?_⟩
  · rintro (h | h) <;> simp [extractModelFromClass, h]
  · intro nm hnm hmem
    simp only [extractModelFromClass, hnm]
    by_cases h : nm = ""
    · simp [h]
    · simp [h, hmem]
  · intro h
    simp [parseModelFile, h]

/-- C2 witness: a pure-extension class (`_inherit` only) and a
self-referential class at concrete inputs. -/
theorem claim_C2_witness :
    ((scanClassBody [Stmt.assign ["_inherit"] (.econst (.vstr "res.partner"))]).nameAttr = none
      ∨ (scanClassBody [Stmt.assign ["_inherit"] (.econst (.vstr "res.partner"))]).nameAttr = some "")
    ∧ extractModelFromClass
        ⟨"Ext", 4, [Stmt.assign ["_inherit"] (.econst (.vstr "res.partner"))]⟩
        "f.py" "m" = none := by
  constructor
  · left; rfl
  · exact (claim_C2_extension_never_node
      ⟨"Ext", 4, [Stmt.assign ["_inherit"] (.econst (.vstr "res.partner"))]⟩
      "f.py" "m" []).1 (Or.inl rfl)

/-- C3: running the full extraction+load pipeline twice against an
unchanged source tree with `clear_existing=False` yields the same node
counts and the same relationship counts as running it once — every node
and relationship upsert is keyed (`MERGE` on the unique key), never
append-based. -/
theorem claim_C3_pipeline_idempotent (tree : List ModuleSrc) (g : Graph) :
    nodeCounts (indexAll tree (indexAll tree g false false).1 false false).1
      = nodeCounts (indexAll tree g false false).1
    ∧ relCounts (indexAll tree (indexAll tree g false false).1 false false).1
      = relCounts (indexAll tree g false false).1 := by
  have h : ∀ g' : Graph, (indexAll tree g' false false).1
      = loadAll (extractAllData tree false).1 g' := fun g' => rfl
  rw [h, h]
  exact loadAll_idem_counts _ _

/-- C3 witness: the pipeline run twice over the concrete fixture keeps the
node census. -/
theorem claim_C3_witness :
    nodeCounts (indexAll [goodModuleEx]
        (indexAll [goodModuleEx] ({} : Graph) false false).1 false false).1
      = nodeCounts (indexAll [goodModuleEx] ({} : Graph) false false).1 :=
  (claim_C3_pipeline_idempotent [goodModuleEx] {}).1

/-- C4: the claim is broken by the code — `_get_existing_file_hashes` is
the stub `return dict()` (its body is a TODO comment saying incremental
support is unimplemented), so the recorded-hash lookup can never match and
a second `incremental=True` pass re-indexes an unchanged module:
`modules_indexed` is 1 for it, not 0, contradicting both the claim and the
`index_all` docstring ("If True, only index changed files (based on
hash)"). -/
theorem claim_C4_incremental_stub :
    getExistingFileHashes = []
    ∧ (indexAll [goodModuleEx]
        (indexAll [goodModuleEx] ({} : Graph) false false).1 false true).2.modulesIndexed = 1
    ∧ (∀ p h : String, ¬ lookupStr getExistingFileHashes p = some h) :=
  ⟨rfl, by decide, by simp [getExistingFileHashes, lookupStr]⟩

/-- C4 witness: the dead skip branch at a concrete ledger key. -/
theorem claim_C4_witness :
    ¬ lookupStr getExistingFileHashes "base/__manifest__.py" = some "hash-base" :=
  claim_C4_incremental_stub.2.2 "base/__manifest__.py" "hash-base"

/-- C5 counterexample: a run over one valid module and one module whose
manifest has a syntax error ends with `modules_indexed = 1` (the valid
module is processed) but `errors = 0` — the broken module is skipped with
a warning and never increments the error counter, so the claimed "nonzero
final error counter reflecting exactly the one broken module" is false. -/
theorem claim_C5_counterexample :
    parseManifestFile ManifestSource.syntaxError = none
    ∧ (extractAllData [goodModuleEx, brokenModuleEx] false).2.modulesIndexed = 1
    ∧ (extractAllData [goodModuleEx, brokenModuleEx] false).2.errors = 0 :=
  ⟨rfl, by decide, by decide⟩

/-- C5 (amended): a manifest with a Python syntax error yields
`parse_manifest() == None` without raising (the whole module extraction
returns `None` rather than propagating), and the module-discovery loop
still processes every other module identically — but the skipped module
leaves the run's error counter untouched: the final `errors` equals what
it would be without the broken module (0 when nothing else fails). -/
theorem claim_C5_broken_manifest (bm : ModuleSrc) (h : String)
    (hman : bm.hasManifestPy = true)
    (hsrc : bm.manifestSrc = ManifestSource.syntaxError)
    (hh : bm.manifestHash = some h) :
    parseManifest bm = none
    ∧ (∀ existing, extractModuleData existing bm = .skipped)
    ∧ (∀ (l1 l2 : List ModuleSrc) (inc : Bool),
        (extractAllData (l1 ++ bm :: l2) inc).1 = (extractAllData (l1 ++ l2) inc).1
        ∧ (extractAllData (l1 ++ bm :: l2) inc).2.modulesIndexed
            = (extractAllData (l1 ++ l2) inc).2.modulesIndexed
        ∧ (extractAllData (l1 ++ bm :: l2) inc).2.errors
            = (extractAllData (l1 ++ l2) inc).2.errors) := by
  have hpm : parseManifest bm = none := by
    simp [parseManifest, hman, hsrc, parseManifestFile]
  have hskip : ∀ existing, extractModuleData existing bm = .skipped := by
    intro existing
    unfold extractModuleData
    rw [hman, hh]
    simp only [Bool.not_true, Bool.false_eq_true, if_false]
    by_cases hl : lookupStr existing (manifestPath bm) = some h
    · simp [hl]
    · simp [hl, hpm]
  refine ⟨hpm, hskip, ?_⟩
  intro l1 l2 inc
  have hsplit : findModules (l1 ++ bm :: l2)
      = findModules l1 ++ bm :: findModules l2 := by
    rw [findModules_append]
    congr 1
    simp [findModules, hman]
  have hfold : ∀ (init : ExtractAccum × RunStats) (e : List (String × String)),
      (findModules l1 ++ bm :: findModules l2).foldl (extractStep e) init
        = (findModules (l1 ++ l2)).foldl (extractStep e) init := by
    intro init e
    rw [List.foldl_append, List.foldl_cons, extractStep_skip _ (hskip e),
      ← List.foldl_append, ← findModules_append]
  refine ⟨?_, ?_, ?_⟩
  · simp only [extractAllData]
    rw [hsplit, hfold]
    exact foldl_extractStep_data_indep _ _ {} _ _
  · simp only [extractAllData]
    rw [hsplit, hfold]
    rw [foldl_extractStep_indexed, foldl_extractStep_indexed]
  · simp only [extractAllData]
    rw [hsplit, hfold]
    rw [foldl_extractStep_errors, foldl_extractStep_errors]

/-- C5 witness at the concrete broken-manifest fixture. -/
theorem claim_C5_witness :
    brokenModuleEx.hasManifestPy = true
    ∧ brokenModuleEx.manifestSrc = ManifestSource.syntaxError
    ∧ brokenModuleEx.manifestHash = some "hash-broken"
    ∧ parseManifest brokenModuleEx = none
    ∧ extractModuleData [] brokenModuleEx = .skipped
    ∧ (extractAllData ([goodModuleEx] ++ brokenModuleEx :: []) false).2.errors
        = (extractAllData ([goodModuleEx] ++ []) false).2.errors := by
  have hmain := claim_C5_broken_manifest brokenModuleEx "hash-broken" rfl rfl rfl
  exact ⟨rfl, rfl, rfl, hmain.1, hmain.2.1 [],
    (hmain.2.2 [goodModuleEx] [] false).2.2⟩

/-- C10: a module directory with `__openerp__.py` but no `__manifest__.py`
is discovered (`MANIFEST_FILES` accepts both names) and counted in
`modules_found`, yet `_extract_module_data` checks only the literal
`__manifest__.py` and returns `None`, so the module contributes nothing:
no records, no `modules_indexed` increment, no error increment. -/
theorem claim_C10_openerp_only (m : ModuleSrc) (inc : Bool)
    (hop : m.hasOpenerpPy = true) (hman : m.hasManifestPy = false) :
    findModules [m] = [m]
    ∧ (∀ existing, extractModuleData existing m = .skipped)
    ∧ (extractAllData [m] inc).1 = ({} : ExtractAccum)
    ∧ (extractAllData [m] inc).2 = { modulesFound := 1 } := by
  have hfm : findModules [m] = [m] := by
    simp [findModules, hop]
  have hskip : ∀ existing, extractModuleData existing m = .skipped := by
    intro existing
    unfold extractModuleData
    rw [hman]
    simp
  refine ⟨hfm, hskip, ?_, ?_⟩
  · simp only [extractAllData]
    rw [hfm, List.foldl_cons, extractStep_skip _ (hskip _), List.foldl_nil]
  · simp only [extractAllData]
    rw [hfm, List.foldl_cons, extractStep_skip _ (hskip _), List.foldl_nil]
    rfl

/-- C10 witness at the concrete legacy-manifest fixture. -/
theorem claim_C10_witness :
    openerpModuleEx.hasOpenerpPy = true
    ∧ openerpModuleEx.hasManifestPy = false
    ∧ findModules [openerpModuleEx] = [openerpModuleEx]
    ∧ extractModuleData [] openerpModuleEx = .skipped
    ∧ (extractAllData [openerpModuleEx] false).1 = ({} : ExtractAccum)
    ∧ (extractAllData [openerpModuleEx] false).2 = { modulesFound := 1 } := by
  have hmain := claim_C10_openerp_only openerpModuleEx false rfl rfl
  exact ⟨rfl, rfl, hmain.1, hmain.2.1 [], hmain.2.2.1, hmain.2.2.2⟩

/-- C6 counterexample: a `Selection` field whose options are parsed from
tuple literals (`_ast_node_to_python` turns `ast.Tuple` into a Python
tuple, and the parser stores the first positional list argument verbatim)
does not round-trip: `json.dumps` writes tuples as JSON arrays and
`json.loads` reads arrays back as lists, so the deserialized value is a
list of two-element lists, not the original list of pairs. -/
theorem claim_C6_counterexample :
    jsonRoundtrip (PyVal.vlist [PyVal.vtuple [PyVal.vstr "draft", PyVal.vstr "Draft"]])
      ≠ PyVal.vlist [PyVal.vtuple [PyVal.vstr "draft", PyVal.vstr "Draft"]]
    ∧ serializeForNeo4j
        (PyVal.vlist [PyVal.vtuple [PyVal.vstr "draft", PyVal.vstr "Draft"]])
      = PyVal.vstr "[[\"draft\", \"Draft\"]]"
    ∧ jsonRoundtrip (PyVal.vlist [PyVal.vtuple [PyVal.vstr "draft", PyVal.vstr "Draft"]])
      = PyVal.vlist [PyVal.vlist [PyVal.vstr "draft", PyVal.vstr "Draft"]] := by
  refine ⟨by decide, by decide, by decide⟩

/-- C6 (amended): deserializing the stored string recovers the original
ordered option list up to replacing each tuple by the list with the same
elements — exactly the original value whenever the value is tuple-free —
and `_serialize_for_neo4j` is the identity on strings, booleans, and
primitive numerics. -/
theorem claim_C6_serialization :
    (∀ v : PyVal, jsonRoundtrip v = normTuples v)
    ∧ (∀ v : PyVal, tupleFree v = true → jsonRoundtrip v = v)
    ∧ (∀ s : String, serializeForNeo4j (.vstr s) = .vstr s)
    ∧ (∀ b : Bool, serializeForNeo4j (.vbool b) = .vbool b)
    ∧ (∀ n : Int, serializeForNeo4j (.vint n) = .vint n)
    ∧ (∀ q : Rat, serializeForNeo4j (.vfloat q) = .vfloat q) := by
  refine ⟨jsonRoundtrip_eq_normTuples, ?_, fun _ => rfl, fun _ => rfl,
    fun _ => rfl, fun _ => rfl⟩
  intro v h
  rw [jsonRoundtrip_eq_normTuples v, normTuples_of_tupleFree v h]

/-- C6 witness: a tuple-free selection list (pairs written as two-element
lists) round-trips to itself. -/
theorem claim_C6_witness :
    tupleFree (PyVal.vlist [PyVal.vlist [PyVal.vstr "draft", PyVal.vstr "Draft"]]) = true
    ∧ jsonRoundtrip (PyVal.vlist [PyVal.vlist [PyVal.vstr "draft", PyVal.vstr "Draft"]])
        = PyVal.vlist [PyVal.vlist [PyVal.vstr "draft", PyVal.vstr "Draft"]] :=
  ⟨by decide, claim_C6_serialization.2.1 _ (by decide)⟩

/-- C7: for every input list and every positive batch size (the
configured default is 50), `process_in_batches` partitions the list into
consecutive chunks of at most that size, invokes the per-kind operation
once per chunk in order, and sums the created/error counts; a chunk whose
store write raises contributes zero created and its whole length to the
error count, and every other chunk is still processed (the totals sum over
all chunks). -/
theorem claim_C7_process_in_batches {R : Type} (outcome : List R → Option Nat)
    (items : List R) (bs : Nat) (hbs : 1 ≤ bs) :
    (chunks bs items).flatten = items
    ∧ (∀ c ∈ chunks bs items, c ≠ [] ∧ c.length ≤ bs)
    ∧ processInBatches (batchOpModel outcome) items bs =
        ⟨((chunks bs items).map fun c =>
            match outcome c with
            | some n => n
            | none => 0).sum,
         ((chunks bs items).map fun c =>
            match outcome c with
            | some _ => 0
            | none => c.length).sum⟩
    ∧ settingsBatchSizeDefault = 50 := by
  refine ⟨chunks_join bs hbs items, fun c hc => chunks_mem bs hbs items c hc, ?_, rfl⟩
  unfold processInBatches
  by_cases hemp : items.isEmpty
  · have : items = [] := by
      cases items with
      | nil => rfl
      | cons x xs => simp at hemp
    subst this
    simp [chunks, chunksGo]
  · rw [if_neg hemp]
    have hop : ∀ c ∈ chunks bs items,
        batchOpModel outcome c =
          ⟨(fun c =>
              match outcome c with
              | some n => n
              | none => 0) c,
           (fun c =>
              match outcome c with
              | some _ => 0
              | none => c.length) c⟩ := by
      intro c hc
      obtain ⟨hne, -⟩ := chunks_mem bs hbs items c hc
      unfold batchOpModel
      rw [if_neg (by simpa using hne)]
      cases h : outcome c <;> simp [h]
    rw [foldl_batch_sum (chunks bs items) (batchOpModel outcome) _ _ hop 0 0]
    simp

/-- C7 witness: batch size 2 over three records where the second chunk's
write raises — one created from the first chunk, one error from the
failing chunk. -/
theorem claim_C7_witness :
    1 ≤ 2 ∧
      processInBatches
          (batchOpModel fun c : List Nat => if c.length = 2 then some 7 else none)
          [1, 2, 3] 2
        = ⟨7, 1⟩ := by
  refine ⟨by decide, ?_⟩
  rw [(claim_C7_process_in_batches
    (fun c : List Nat => if c.length = 2 then some 7 else none)
    [1, 2, 3] 2 (by decide)).2.2.1]
  decide

/-- C9 counterexample: a view record lacking both `model` and `inherit_id`
is NOT excluded from the extractor's results — `_extract_view` appends the
validation error to the record's `errors` list and still returns the
metadata, which `_parse_xml_file` appends to its result list. -/
theorem claim_C9_counterexample :
    parseXmlViewRecords "m" [⟨"view_a", [⟨"name", none, some "A view"⟩]⟩] "v.xml"
      = [{ xmlId := "m.view_a", vname := "A view", model := "",
           viewType := "unknown", module := "m", inheritId := none,
           priority := 16, mode := "primary", filePath := "v.xml",
           errors := ["View has neither model nor inherit_id"] }] := by
  decide

/-- C9 (amended): for every record the extractor returns, the error
`View has neither model nor inherit_id` is recorded exactly when the
record lacks a truthy `model` field and a truthy `inherit_id` field — but
the record stays in the results; the only records dropped are those whose
`priority` field value makes `int()` raise. -/
theorem claim_C9_view_validation (moduleName fp : String) (r : XmlRecord) :
    (∀ vm, extractView moduleName r fp = some vm →
      ("View has neither model nor inherit_id" ∈ vm.errors ↔
        ((lookupStr (viewFieldsDict r) "model").getD "" = ""
          ∧ ¬ truthyOptStr (lookupStr (viewFieldsDict r) "inherit_id"))))
    ∧ (extractView moduleName r fp = none ↔
        ∃ s, lookupStr (viewFieldsDict r) "priority" = some s
          ∧ pyIntOfString s = none) := by
  constructor
  · intro vm hvm
    unfold extractView at hvm
    by_cases hcond : (lookupStr (viewFieldsDict r) "model").getD "" = ""
        ∧ ¬ truthyOptStr (lookupStr (viewFieldsDict r) "inherit_id")
    · simp only [if_pos hcond] at hvm
      cases hpr : (match lookupStr (viewFieldsDict r) "priority" with
        | some s => pyIntOfString s
        | none => some 16) with
      | none => rw [hpr] at hvm; cases hvm
      | some p =>
        rw [hpr] at hvm
        cases hvm
        simp [hcond]
    · simp only [if_neg hcond] at hvm
      cases hpr : (match lookupStr (viewFieldsDict r) "priority" with
        | some s => pyIntOfString s
        | none => some 16) with
      | none => rw [hpr] at hvm; cases hvm
      | some p =>
        rw [hpr] at hvm
        cases hvm
        simp only [iff_false_intro hcond, iff_false]
        intro hmem
        by_cases hid : r.recId = "" <;> simp [hid] at hmem
  · unfold extractView
    cases hpl : lookupStr (viewFieldsDict r) "priority" with
    | none => simp [hpl]
    | some s =>
      cases hpi : pyIntOfString s with
      | none => simp [hpl, hpi]
      | some p => simp [hpl, hpi]

/-- C9 witness: the record of the counterexample satisfies the amended
characterization — it is returned with the validation error recorded. -/
theorem claim_C9_witness :
    extractView "m" ⟨"view_a", [⟨"name", none, some "A view"⟩]⟩ "v.xml"
      = some { xmlId := "m.view_a", vname := "A view", model := "",
               viewType := "unknown", module := "m", inheritId := none,
               priority := 16, mode := "primary", filePath := "v.xml",
               errors := ["View has neither model nor inherit_id"] }
    ∧ ("View has neither model nor inherit_id" ∈
        ({ xmlId := "m.view_a", vname := "A view", model := "",
           viewType := "unknown", module := "m", inheritId := none,
           priority := 16, mode := "primary", filePath := "v.xml",
           errors := ["View has neither model nor inherit_id"] } : ViewMeta).errors ↔
      ((lookupStr (viewFieldsDict ⟨"view_a", [⟨"name", none, some "A view"⟩]⟩) "model").getD "" = ""
        ∧ ¬ truthyOptStr
            (lookupStr (viewFieldsDict ⟨"view_a", [⟨"name", none, some "A view"⟩]⟩) "inherit_id"))) :=
  ⟨by decide,
    (claim_C9_view_validation "m" "v.xml" ⟨"view_a", [⟨"name", none, some "A view"⟩]⟩).1
      _ (by decide)⟩

/-- C8: for every current file list and ledger state, `detect_changes`
returns three pairwise-disjoint sets determined by content-hash
comparison — `new` is exactly the files present in the list but absent
from the ledger, `modified` exactly the files present in both whose
current content hash differs from the stored hash, `deleted` exactly the
ledger paths absent from the list — and the stored modification time (and
size) play no role in the decision. -/
theorem claim_C8_detect_changes (ledger : List (String × FileState))
    (hashOf : String → String) (files : List String) (p : String)
    (ts sz : String → Int) :
    (p ∈ (detectChanges ledger hashOf files).newFiles ↔
      p ∈ files ∧ getFileState ledger p = none)
    ∧ (p ∈ (detectChanges ledger hashOf files).modified ↔
      p ∈ files ∧ ∃ st, getFileState ledger p = some st ∧ hashOf p ≠ st.hash)
    ∧ (p ∈ (detectChanges ledger hashOf files).deleted ↔
      (p ∈ ledger.map fun kv => kv.1) ∧ p ∉ files)
    ∧ (¬ (p ∈ (detectChanges ledger hashOf files).newFiles ∧
          p ∈ (detectChanges ledger hashOf files).modified))
    ∧ (¬ (p ∈ (detectChanges ledger hashOf files).newFiles ∧
          p ∈ (detectChanges ledger hashOf files).deleted))
    ∧ (¬ (p ∈ (detectChanges ledger hashOf files).modified ∧
          p ∈ (detectChanges ledger hashOf files).deleted))
    ∧ detectChanges (ledger.map fun kv => (kv.1, ⟨kv.2.hash, ts kv.1, sz kv.1⟩))
        hashOf files = detectChanges ledger hashOf files := by
  have hnew : p ∈ (detectChanges ledger hashOf files).newFiles ↔
      p ∈ files ∧ getFileState ledger p = none := by
    simp [detectChanges, List.mem_filter, Option.isNone_iff_eq_none]
  have hmod : p ∈ (detectChanges ledger hashOf files).modified ↔
      p ∈ files ∧ ∃ st, getFileState ledger p = some st ∧ hashOf p ≠ st.hash := by
    simp only [detectChanges, List.mem_filter]
    constructor
    · rintro ⟨hf, hcond⟩
      refine ⟨hf, ?_⟩
      cases h : getFileState ledger p with
      | none => rw [h] at hcond; simp at hcond
      | some st =>
        rw [h] at hcond
        simp at hcond
        exact ⟨st, rfl, hcond⟩
    · rintro ⟨hf, st, hst, hne⟩
      exact ⟨hf, by rw [hst]; simpa using hne⟩
  have hdel : p ∈ (detectChanges ledger hashOf files).deleted ↔
      (p ∈ ledger.map fun kv => kv.1) ∧ p ∉ files := by
    simp [detectChanges, List.mem_filter]
  refine ⟨hnew, hmod, hdel, ?_, ?_, ?_, ?_⟩
  · rintro ⟨h1, h2⟩
    rw [hnew] at h1; rw [hmod] at h2
    obtain ⟨-, hnone⟩ := h1
    obtain ⟨-, st, hsome, -⟩ := h2
    rw [hnone] at hsome; cases hsome
  · rintro ⟨h1, h2⟩
    rw [hnew] at h1; rw [hdel] at h2
    exact h2.2 h1.1
  · rintro ⟨h1, h2⟩
    rw [hmod] at h1; rw [hdel] at h2
    exact h2.2 h1.1
  · simp only [detectChanges]
    congr 1
    · apply List.filter_congr
      intro q hq
      rw [getFileState_restamp]
      cases getFileState ledger q <;> simp
    · apply List.filter_congr
      intro q hq
      rw [getFileState_restamp]
      cases getFileState ledger q <;> simp
    · simp [Function.comp_def]

/-- C8 witness: a file absent from the ledger lands in `new` at a concrete
ledger and file list. -/
theorem claim_C8_witness :
    "b.py" ∈ (detectChanges [("a.py", ⟨"h1", 1, 2⟩)] (fun _ => "h2")
        ["a.py", "b.py"]).newFiles
      ↔ ("b.py" ∈ ["a.py", "b.py"]
        ∧ getFileState [("a.py", ⟨"h1", 1, 2⟩)] "b.py" = none) :=
  (claim_C8_detect_changes [("a.py", ⟨"h1", 1, 2⟩)] (fun _ => "h2")
    ["a.py", "b.py"] "b.py" (fun _ => 0) (fun _ => 0)).1

end OdooGraph
